import Mathlib

/-!
Verification of the ad ingestion and deduplication pipeline of
`scripts/import-brands.js` (competitor-ads tracker).

The JavaScript source is shallowly embedded as executable Lean functions:

* Optional / unreliable string fields are `Option String`; JavaScript
  truthiness of such a field (`undefined`, `null` and `""` are falsy) is
  `strTruthy`.
* Dates are modelled at day granularity as `Nat` (days since the epoch,
  which was a Thursday).  The source compares week starts only through
  equality of ISO date strings, and day numbers map injectively to those
  strings, so equality of day numbers is a faithful model.
* A provider date string (`startDateFormatted`) is represented by the
  epoch-millisecond value that `new Date(s).getTime()` parses it to
  (`Option Int`; `none` covers both an absent field and the falsy `""`).
  A `NaN` parse behaves in every comparison of the source exactly like
  `0` ("unknown"), so it needs no separate representative.
* `Date.now()` / `Math.random()`-based freshly generated unique keys are
  modelled by a dedicated constructor indexed by a counter, which captures
  exactly the property the source relies on: they collide with nothing.
-/

namespace CompetitorAds

/-- JS truthiness of an optional string field: `undefined`, `null` and the
empty string are falsy. -/
def strTruthy : Option String → Bool
  | none => false
  | some s => s != ""

/-- JS `a || b || ...` over optional string fields: the first truthy value,
`none` when all are falsy. -/
def firstTruthy? : List (Option String) → Option String
  | [] => none
  | a :: rest => if strTruthy a then a else firstTruthy? rest

/-- JS `a || b || ... || d` with a string default (e.g. `|| ''`). -/
def firstTruthyD (l : List (Option String)) (d : String) : String :=
  (firstTruthy? l).getD d

/-- A semi-structured media field: the provider may send a plain URL string
or a nested object of URL candidates. -/
structure MediaObj where
  video_hd_url : Option String := none
  video_sd_url : Option String := none
  videoHdUrl : Option String := none
  videoSdUrl : Option String := none
  videoPreviewImageUrl : Option String := none
  video_preview_image_url : Option String := none
  resizedImageUrl : Option String := none
  resized_image_url : Option String := none
  originalImageUrl : Option String := none
  original_image_url : Option String := none
  url : Option String := none
  deriving DecidableEq, Repr

/-- A JS value in a media position: string, or object. -/
inductive JsMedia where
  | str (s : String)
  | obj (o : MediaObj)
  deriving DecidableEq, Repr

/-- The `body` field: either a plain string or an object `{text: ...}`. -/
inductive BodyVal where
  | str (s : String)
  | obj (text : Option String)
  deriving DecidableEq, Repr

/-- One element of `snapshot.cards`. -/
structure Card where
  title : Option String := none
  body : Option BodyVal := none
  ctaText : Option String := none
  ctaType : Option String := none
  videoHdUrl : Option JsMedia := none
  videoSdUrl : Option JsMedia := none
  videoPreviewImageUrl : Option JsMedia := none
  resizedImageUrl : Option JsMedia := none
  originalImageUrl : Option JsMedia := none
  imageUrl : Option JsMedia := none
  image_url : Option JsMedia := none
  thumbnailUrl : Option JsMedia := none
  thumbnail_url : Option JsMedia := none
  deriving DecidableEq, Repr

/-- The `snapshot` object of a raw scraped item. -/
structure SnapObj where
  videos : List MediaObj := []
  images : List JsMedia := []
  cards : List Card := []
  title : Option String := none
  link_description : Option String := none
  body : Option BodyVal := none
  ctaText : Option String := none
  imageUrl : Option JsMedia := none
  image_url : Option JsMedia := none
  thumbnailUrl : Option JsMedia := none
  thumbnail_url : Option JsMedia := none
  mediaUrl : Option JsMedia := none
  media_url : Option JsMedia := none
  previewUrl : Option JsMedia := none
  preview_url : Option JsMedia := none
  deriving DecidableEq, Repr

/-- The `startDate` field may be a Unix-seconds number, a string, or absent. -/
inductive StartDateField where
  | absent
  | num (n : Int)
  | str (s : String)
  deriving DecidableEq, Repr

/-- One raw scraped item (`RawAdRecord`), as consumed by
`transformApifyResults`.  Every field is optional / loosely shaped, as the
source treats them.  `startDateFormatted` is represented by its parsed
epoch-millisecond value (see the file header). -/
structure RawItem where
  adArchiveID : Option String := none
  adArchiveId : Option String := none
  adid : Option String := none
  snapshot : Option SnapObj := none
  startDateFormatted : Option Int := none
  startDate : StartDateField := .absent
  imageUrl : Option JsMedia := none
  image_url : Option JsMedia := none
  thumbnailUrl : Option JsMedia := none
  thumbnail_url : Option JsMedia := none
  mediaUrl : Option JsMedia := none
  media_url : Option JsMedia := none
  previewUrl : Option JsMedia := none
  preview_url : Option JsMedia := none
  deriving DecidableEq, Repr

/-- Source: `item.adArchiveID || item.adArchiveId || item.adid` (the id is
used only when truthy; `none` is the `if (!adId)` case). -/
def adIdOf (it : RawItem) : Option String :=
  firstTruthy? [it.adArchiveID, it.adArchiveId, it.adid]

/-- Source: `item.snapshot || {}`. -/
def snapOf (it : RawItem) : SnapObj :=
  it.snapshot.getD {}

/-- Attempt of the regex `\/(\d{10,}_\d+[^\/\?]*)` at a position right after
a `/`: at least ten digits, an underscore, at least one digit, then
greedily everything up to the next `/` or `?`. -/
def fpCapture (cs : List Char) : Option (List Char) :=
  let d1 := cs.takeWhile Char.isDigit
  let r1 := cs.dropWhile Char.isDigit
  match r1 with
  | '_' :: r2 =>
    if 10 ≤ d1.length && (r2.headD ' ').isDigit then
      some (cs.takeWhile fun c => !(c == '/' || c == '?'))
    else none
  | _ => none

/-- Leftmost match of the fingerprint regex over the URL characters. -/
def findFpMatch : List Char → Option (List Char)
  | [] => none
  | c :: cs =>
    if c = '/' then
      match fpCapture cs with
      | some r => some r
      | none => findFpMatch cs
    else findFpMatch cs

/-- Source: `getMediaFingerprint` — empty URL gives the empty fingerprint;
otherwise the regex capture, falling back to `url.slice(-150)`. -/
def getMediaFingerprint (url : String) : String :=
  if url = "" then ""
  else
    match findFpMatch url.data with
    | some r => String.mk r
    | none => String.mk (url.data.drop (url.data.length - 150))

/-- Media fingerprint of an item, exactly as the media-dedup pass computes
it: first video (hd over sd), else first image (string, or
`resizedImageUrl || url`). -/
def mediaSig (it : RawItem) : String :=
  let snap := snapOf it
  let videoUrl := firstTruthyD
    [snap.videos.head?.bind (·.video_hd_url), snap.videos.head?.bind (·.video_sd_url)] ""
  let imageUrl :=
    match snap.images.head? with
    | some (.str s) => s
    | some (.obj o) => firstTruthyD [o.resizedImageUrl, o.url] ""
    | none => ""
  getMediaFingerprint (if videoUrl ≠ "" then videoUrl else imageUrl)

/-- JS `.trim().toLowerCase()`: whitespace stripped from both ends, then
each character lowered (spelled out over the character list so that it
computes by structural recursion). -/
def jsTrimLower (s : String) : String :=
  String.mk
    ((((s.data.dropWhile Char.isWhitespace).reverse.dropWhile Char.isWhitespace).reverse).map
      Char.toLower)

/-- Normalized headline of an item, exactly as the headline-dedup pass
computes it: `(firstCard.title || snapshot.title || snapshot.link_description
|| '').trim().toLowerCase()`. -/
def headlineSig (it : RawItem) : String :=
  let snap := snapOf it
  let firstCard := snap.cards.head?.getD {}
  jsTrimLower (firstTruthyD [firstCard.title, snap.title, snap.link_description] "")

/-- Start timestamp in epoch milliseconds: parsed `startDateFormatted` when
present, else a numeric `startDate` times 1000, else 0 ("unknown"). -/
def startTimestamp (it : RawItem) : Int :=
  match it.startDateFormatted with
  | some ms => ms
  | none =>
    match it.startDate with
    | .num n => n * 1000
    | _ => 0

/-- Key of a collapse-pass map entry.  `sig` models the `media:`/`headline:`
prefixed keys, `id` the `id:` prefixed keys, and `fresh` the
`id:unique_${Date.now()}_${Math.random()}` keys, whose only relied-on
property is that they are distinct from every other key. -/
inductive GKey where
  | sig (s : String)
  | id (s : String)
  | fresh (n : Nat)
  deriving DecidableEq, Repr

/-- Map value of a collapse pass: `{ item, startTimestamp }`. -/
structure GEntry where
  item : RawItem
  startTimestamp : Int
  deriving DecidableEq, Repr

/-- Lookup in an insertion-ordered map (JS `Map.get`). -/
def lookupKV : List (GKey × GEntry) → GKey → Option GEntry
  | [], _ => none
  | (k', v') :: rest, k => if k' = k then some v' else lookupKV rest k

/-- JS `Map.set`: replace in place when the key exists (keeping its
position), append otherwise. -/
def setKV : List (GKey × GEntry) → GKey → GEntry → List (GKey × GEntry)
  | [], k, v => [(k, v)]
  | (k', v') :: rest, k, v =>
    if k' = k then (k, v) :: rest else (k', v') :: setKV rest k v

/-- State of one collapse pass: the insertion-ordered map plus a counter
producing the fresh unique keys. -/
structure GState where
  m : List (GKey × GEntry)
  freshn : Nat
  deriving Repr

/-- One iteration of a collapse pass (the loop bodies at the media and
headline passes are identical up to the signal function `sig`): an item
with a non-empty signal joins its signal group, replacing the kept entry
only when its timestamp is non-zero and strictly smaller; an item with an
empty signal is kept under its own id key, or under a fresh unique key
when it has no id. -/
def collapseStep (sig : RawItem → String) (st : GState) (it : RawItem) : GState :=
  let ts := startTimestamp it
  let s := sig it
  if s ≠ "" then
    match lookupKV st.m (GKey.sig s) with
    | some e =>
      if ts > 0 ∧ ts < e.startTimestamp then
        { st with m := setKV st.m (GKey.sig s) ⟨it, ts⟩ }
      else st
    | none => { st with m := setKV st.m (GKey.sig s) ⟨it, ts⟩ }
  else
    match adIdOf it with
    | some a => { st with m := setKV st.m (GKey.id a) ⟨it, ts⟩ }
    | none => { m := setKV st.m (GKey.fresh st.freshn) ⟨it, ts⟩, freshn := st.freshn + 1 }

/-- A whole collapse pass: fold the items through the map, then take the
map's values in key-insertion order (`Array.from(map.values()).map(v =>
v.item)`). -/
def collapsePass (sig : RawItem → String) (items : List RawItem) : List RawItem :=
  ((items.foldl (collapseStep sig) ⟨[], 0⟩).m).map fun p => p.2.item

/-- First pass of `transformApifyResults`: drop later occurrences of a
non-empty ad id; items without an id are always kept. -/
def uniqueById (seen : List String) : List RawItem → List RawItem
  | [] => []
  | it :: rest =>
    match adIdOf it with
    | none => it :: uniqueById seen rest
    | some a =>
      if a ∈ seen then uniqueById seen rest else it :: uniqueById (a :: seen) rest

/-- The deduplicated list before truncation (the source's `uniqueResults`):
id pass, then media-fingerprint pass, then headline pass. -/
def uniqueResults (rs : List RawItem) : List RawItem :=
  collapsePass headlineSig (collapsePass mediaSig (uniqueById [] rs))

/-- The source's `top20Unique`: the first 20 surviving items. -/
def dedupItems (rs : List RawItem) : List RawItem :=
  (uniqueResults rs).take 20

/-- An ad id as stored: either the provider id string, or a synthesized
unique id (`apify_${Date.now()}_${index}`), modelled by its index — the
source relies only on synthesized ids never colliding with anything. -/
inductive AdId where
  | real (s : String)
  | synth (n : Nat)
  deriving DecidableEq, Repr

/-- A start date as emitted by the transform: the date part of a parsed
timestamp (day number), or the raw `startDate` string passed through. -/
inductive DateVal where
  | day (d : Int)
  | raw (s : String)
  deriving DecidableEq, Repr

/-- Day number of an epoch-millisecond timestamp (the `toISOString`
date part / the date part of the formatted string). -/
def msDay (ms : Int) : Int := Int.fdiv ms 86400000

/-- The deduplicated, normalized representation of one creative
(the objects returned by `transformApifyResults`). -/
structure CanonicalAd where
  ad_id : AdId
  brand_id : Nat
  rank : Int
  creative_type : String
  creative_url : Option String
  video_url : Option String
  ad_copy : String
  headline : String
  cta_type : String
  start_date : Option DateVal
  ad_library_link : String
  ai_format : Option String
  ai_hook : Option String
  ai_visual_style : Option String
  ai_angle : Option String
  deriving DecidableEq, Repr

/-- JS truthiness of a media-position value (`""` is falsy, any object is
truthy). -/
def jmTruthy : Option JsMedia → Bool
  | none => false
  | some (.str s) => s != ""
  | some (.obj _) => true

/-- Source `extractUrl`: a falsy value gives `null`; a non-empty string is
itself; an object yields the first truthy of its URL candidates. -/
def extractUrl : Option JsMedia → Option String
  | none => none
  | some (.str s) => if s = "" then none else some s
  | some (.obj o) =>
    firstTruthy? [o.videoHdUrl, o.video_hd_url, o.videoSdUrl, o.video_sd_url,
      o.videoPreviewImageUrl, o.video_preview_image_url, o.resizedImageUrl,
      o.resized_image_url, o.originalImageUrl, o.original_image_url, o.url]

/-- Source `extractVideoPreviewUrl`: only object values carry a preview. -/
def extractVideoPreviewUrl : Option JsMedia → Option String
  | some (.obj o) => firstTruthy? [o.videoPreviewImageUrl, o.video_preview_image_url]
  | _ => none

/-- The string content of a `body` field when it is a plain string. -/
def bodyStr? : Option BodyVal → Option String
  | some (.str s) => some s
  | _ => none

/-- The `body?.text` access. -/
def bodyText? : Option BodyVal → Option String
  | some (.obj t) => t
  | _ => none

/-- A fallback media field counts only when it is a string starting with
`http` (prefix test spelled out over the character list). -/
def httpStr? : Option JsMedia → Option String
  | some (.str s) =>
    if List.isPrefixOf "http".data s.data then some s else none
  | _ => none

/-- First usable fallback media field. -/
def firstHttp : List (Option JsMedia) → Option String
  | [] => none
  | a :: rest =>
    match httpStr? a with
    | some s => some s
    | none => firstHttp rest

/-- Ad library link for an id (`https://www.facebook.com/ads/library/?id=`
followed by the id; for a synthesized id the source embeds the synthesized
string, which nothing ever inspects). -/
def adLibraryLink : AdId → String
  | .real s => "https://www.facebook.com/ads/library/?id=" ++ s
  | .synth n => "https://www.facebook.com/ads/library/?id=apify_" ++ toString n

/-- Construction of one canonical ad from a surviving item at 0-based
output position `index` (the closure of `top20Unique.map` in the source):
media-type cascade over card fields, snapshot videos and snapshot images,
then the flat fallback list; body/headline/cta coalescing; rank is
`index + 1`. -/
def mkCanonical (brandId : Nat) (index : Nat) (it : RawItem) : CanonicalAd :=
  let adId : AdId :=
    match adIdOf it with
    | some a => .real a
    | none => .synth index
  let snap := snapOf it
  let firstCard := snap.cards.head?.getD {}
  let cascade : Option String × Option String × String :=
    if jmTruthy firstCard.videoHdUrl || jmTruthy firstCard.videoSdUrl then
      (firstTruthy? [extractUrl firstCard.videoPreviewImageUrl,
         extractUrl firstCard.resizedImageUrl, extractUrl firstCard.originalImageUrl],
       firstTruthy? [extractUrl firstCard.videoHdUrl, extractUrl firstCard.videoSdUrl],
       "video")
    else if jmTruthy firstCard.resizedImageUrl || jmTruthy firstCard.originalImageUrl then
      (firstTruthy? [extractUrl firstCard.resizedImageUrl, extractUrl firstCard.originalImageUrl],
       none, "image")
    else
      match snap.videos.head? with
      | some fv =>
        (firstTruthy? [extractVideoPreviewUrl (some (.obj fv)), extractUrl snap.images.head?],
         extractUrl (some (.obj fv)), "video")
      | none =>
        match snap.images.head? with
        | some img => (extractUrl (some img), none, "image")
        | none => (none, none, "image")
  let creativeUrl0 := cascade.1
  let videoUrl := cascade.2.1
  let creativeType := cascade.2.2
  let creativeUrl :=
    if !strTruthy creativeUrl0 && !strTruthy videoUrl then
      match firstHttp [it.imageUrl, it.image_url, it.thumbnailUrl, it.thumbnail_url,
        it.mediaUrl, it.media_url, it.previewUrl, it.preview_url,
        snap.imageUrl, snap.image_url, snap.thumbnailUrl, snap.thumbnail_url,
        snap.mediaUrl, snap.media_url, snap.previewUrl, snap.preview_url,
        firstCard.imageUrl, firstCard.image_url, firstCard.thumbnailUrl,
        firstCard.thumbnail_url] with
      | some s => some s
      | none => creativeUrl0
    else creativeUrl0
  let adCopy :=
    match bodyStr? firstCard.body with
    | some s => s
    | none =>
      if strTruthy (bodyText? firstCard.body) then (bodyText? firstCard.body).getD ""
      else
        match bodyStr? snap.body with
        | some s => s
        | none =>
          if strTruthy (bodyText? snap.body) then (bodyText? snap.body).getD "" else ""
  let headline := firstTruthyD [firstCard.title, snap.title] ""
  let ctaType := firstTruthyD [firstCard.ctaText, firstCard.ctaType, snap.ctaText] ""
  let startDate : Option DateVal :=
    match it.startDateFormatted with
    | some ms => some (.day (msDay ms))
    | none =>
      match it.startDate with
      | .num n => some (.day (msDay (n * 1000)))
      | .str s => if s ≠ "" then some (.raw s) else none
      | .absent => none
  { ad_id := adId
    brand_id := brandId
    rank := (index : Int) + 1
    creative_type := creativeType
    creative_url := creativeUrl
    video_url := videoUrl
    ad_copy := adCopy
    headline := headline
    cta_type := ctaType
    start_date := startDate
    ad_library_link := adLibraryLink adId
    ai_format := none
    ai_hook := none
    ai_visual_style := none
    ai_angle := none }

/-- The `top20Unique.map((item, index) => ...)` step. -/
def mapWithRank (brandId : Nat) (n : Nat) : List RawItem → List CanonicalAd
  | [] => []
  | it :: rest => mkCanonical brandId n it :: mapWithRank brandId (n + 1) rest

/-- The Deduplicator: raw batch to at most 20 ranked canonical ads. -/
def transformApifyResults (rs : List RawItem) (brandId : Nat) : List CanonicalAd :=
  mapWithRank brandId 0 (dedupItems rs)

/-- Week start (`getWeekStart`): step a day number back to its most recent
Monday.  Day 0 of the epoch is a Thursday, so the weekday (0 = Sunday) of
day `d` is `(d + 4) % 7` and the step back is `weekday - 1`, or 6 on a
Sunday — i.e. `(d + 3) % 7` days.  The source returns the ISO date string
of that Monday and only ever compares the strings for equality; day
numbers map injectively to the strings. -/
def getWeekStart (d : Nat) : Nat := d - (d + 3) % 7

/-- One `ad_vault` row (`StoredAd`).  The SQL autoincrement id, the raw-
response blob and the two audit timestamps carry no pipeline logic and are
not modelled. -/
structure StoredAd where
  ad_id : AdId
  brand_id : Nat
  date_scraped : Option Nat
  rank : Int
  creative_type : Option String
  creative_url : Option String
  video_url : Option String
  ad_copy : String
  headline : String
  cta_type : String
  start_date : Option DateVal
  ad_library_link : String
  ai_format : Option String
  ai_hook : Option String
  ai_visual_style : Option String
  ai_angle : Option String
  ai_asset_type : Option String
  ai_visual_format : Option String
  ai_messaging_angle : Option String
  ai_hook_tactic : Option String
  ai_offer_type : Option String
  first_seen : Option Nat
  last_seen : Option Nat
  weeks_in_top10 : Int
  bookmarked : Bool
  deriving DecidableEq, Repr

/-- One `weekly_snapshots` row; `(brand_id, ad_id, week_start)` is its
natural unique key. -/
structure WeeklySnapshot where
  brand_id : Nat
  ad_id : AdId
  week_start : Nat
  rank : Int
  deriving DecidableEq, Repr

/-- One `brands` row, reduced to what the pipeline touches. -/
structure BrandRow where
  id : Nat
  last_scraped : Option Nat
  deriving DecidableEq, Repr

/-- The relational state the Reconciler reads and writes. -/
structure DBState where
  brands : List BrandRow
  ad_vault : List StoredAd
  weekly_snapshots : List WeeklySnapshot
  deriving DecidableEq, Repr

/-- The registered brand ids. -/
def brandIds (st : DBState) : List Nat := st.brands.map (·.id)

/-- Row lookup by ad id (`SELECT * FROM ad_vault WHERE ad_id = ?`,
first row). -/
def vaultLookup (st : DBState) (x : AdId) : Option StoredAd :=
  st.ad_vault.find? fun r => r.ad_id = x

/-- Deletion condition of the cleanup step: same brand, id not in the new
batch, and not bookmarked (`bookmarked = 0 OR bookmarked IS NULL`). -/
def deleteCond (brandId : Nat) (newIds : List AdId) (r : StoredAd) : Bool :=
  r.brand_id = brandId && decide (r.ad_id ∉ newIds) && !r.bookmarked

/-- The cleanup step run when the new batch is non-empty: first delete the
weekly snapshots of every doomed ad id (the source filters snapshots by
ad id only, not by brand), then delete the rows themselves. -/
def afterDeletion (brandId : Nat) (newIds : List AdId) (st : DBState) : DBState :=
  let deleteIds := (st.ad_vault.filter (deleteCond brandId newIds)).map (·.ad_id)
  { st with
    weekly_snapshots := st.weekly_snapshots.filter fun s => s.ad_id ∉ deleteIds
    ad_vault := st.ad_vault.filter fun r => !deleteCond brandId newIds r }

/-- SQL `COALESCE(?, column)`: keep the old value only when the new
parameter is NULL. -/
def coalesce (a b : Option String) : Option String :=
  match a with
  | some v => some v
  | none => b

/-- JS `v || null` on an optional string parameter. -/
def orNull (a : Option String) : Option String :=
  if strTruthy a then a else none

/-- The UPDATE of an existing row: new `last_seen`, `rank` and longevity
counter; media columns only when the new value is non-null
(`creative_type` is always a non-null string parameter here). -/
def updateRow (today : Nat) (ad : CanonicalAd) (wk : Int) (r : StoredAd) : StoredAd :=
  { r with
    last_seen := some today
    rank := ad.rank
    weeks_in_top10 := wk
    creative_url := coalesce ad.creative_url r.creative_url
    creative_type := coalesce (some ad.creative_type) r.creative_type
    video_url := coalesce ad.video_url r.video_url }

/-- The INSERT of a previously unseen ad: `first_seen = last_seen = today`,
`weeks_in_top10 = 1`, `bookmarked` and the five analysis tags take their
column defaults. -/
def newRow (brandId : Nat) (today : Nat) (ad : CanonicalAd) : StoredAd :=
  { ad_id := ad.ad_id
    brand_id := brandId
    date_scraped := some today
    rank := ad.rank
    creative_type := some (if ad.creative_type = "" then "image" else ad.creative_type)
    creative_url := ad.creative_url
    video_url := ad.video_url
    ad_copy := ad.ad_copy
    headline := ad.headline
    cta_type := ad.cta_type
    start_date := ad.start_date
    ad_library_link := ad.ad_library_link
    ai_format := orNull ad.ai_format
    ai_hook := orNull ad.ai_hook
    ai_visual_style := orNull ad.ai_visual_style
    ai_angle := orNull ad.ai_angle
    ai_asset_type := none
    ai_visual_format := none
    ai_messaging_angle := none
    ai_hook_tactic := none
    ai_offer_type := none
    first_seen := some today
    last_seen := some today
    weeks_in_top10 := 1
    bookmarked := false }

/-- The longevity recomputation: increment only when the stored `last_seen`
exists and its Monday start differs from the current cycle's. -/
def nextWeeks (weekStart : Nat) (r : StoredAd) : Int :=
  match r.last_seen.map getWeekStart with
  | some w => if w ≠ weekStart then r.weeks_in_top10 + 1 else r.weeks_in_top10
  | none => r.weeks_in_top10

/-- The entries the merge loop accumulates into `processedAds`. -/
structure ProcessedAd where
  ad_id : AdId
  rank : Int
  first_seen : Option Nat
  last_seen : Option Nat
  weeks_in_top10 : Int
  isNew : Bool
  deriving DecidableEq, Repr

/-- `INSERT OR REPLACE INTO weekly_snapshots`: the row with the same
`(brand_id, ad_id, week_start)` key is replaced. -/
def upsertSnapshot (snaps : List WeeklySnapshot) (s : WeeklySnapshot) : List WeeklySnapshot :=
  (snaps.filter fun r =>
    !(r.brand_id = s.brand_id && r.ad_id = s.ad_id && r.week_start = s.week_start)) ++ [s]

/-- The UPDATE-or-INSERT half of one merge-loop iteration: update the
existing row (all rows carrying that ad id — the SQL UPDATE is keyed by
`ad_id` alone) or insert a new one, together with the `processedAds`
entry the loop pushes. -/
def mergeVault (brandId today weekStart : Nat) (st : DBState) (ad : CanonicalAd) :
    DBState × ProcessedAd :=
  match vaultLookup st ad.ad_id with
  | some ex =>
    ({ st with
        ad_vault := st.ad_vault.map fun r =>
          if r.ad_id = ad.ad_id then updateRow today ad (nextWeeks weekStart ex) r else r },
     { ad_id := ex.ad_id, rank := ad.rank, first_seen := ex.first_seen,
       last_seen := some today, weeks_in_top10 := nextWeeks weekStart ex, isNew := false })
  | none =>
    ({ st with ad_vault := st.ad_vault ++ [newRow brandId today ad] },
     { ad_id := ad.ad_id, rank := ad.rank, first_seen := some today,
       last_seen := some today, weeks_in_top10 := 1, isNew := true })

/-- One iteration of the per-ad merge loop of `processScrapedAds`: the
UPDATE-or-INSERT above, then the upsert of this week's snapshot. -/
def mergeStep (brandId today weekStart : Nat)
    (acc : DBState × List ProcessedAd) (ad : CanonicalAd) : DBState × List ProcessedAd :=
  let s := mergeVault brandId today weekStart acc.1 ad
  ({ s.1 with
      weekly_snapshots := upsertSnapshot s.1.weekly_snapshots
        ⟨brandId, ad.ad_id, weekStart, ad.rank⟩ },
   acc.2 ++ [s.2])

/-- The merge loop with JavaScript exception semantics made explicit:
`failsOn` marks the ads whose storage write rejects.  The loop body has no
try/catch, so the first failing write leaves that ad's state untouched and
propagates, abandoning the remaining ads; earlier, individually committed
writes stay. -/
def mergeLoop (failsOn : AdId → Bool) (brandId today weekStart : Nat) :
    DBState × List ProcessedAd → List CanonicalAd →
    (DBState × List ProcessedAd) × Option AdId
  | acc, [] => (acc, none)
  | acc, ad :: rest =>
    if failsOn ad.ad_id then (acc, some ad.ad_id)
    else mergeLoop failsOn brandId today weekStart
      (mergeStep brandId today weekStart acc ad) rest

/-- Update of the brand's `last_scraped` stamp (the final statement of
`processScrapedAds`; `CURRENT_TIMESTAMP` modelled at day granularity). -/
def touchBrand (brands : List BrandRow) (brandId today : Nat) : List BrandRow :=
  brands.map fun b => if b.id = brandId then { b with last_scraped := some today } else b

/-- The Reconciler `processScrapedAds` with an explicit per-ad failure
oracle: unknown brands are skipped; with a non-empty batch the stale
non-bookmarked rows (and their snapshots) are deleted; then the per-ad
merge loop runs, and only a fully successful loop reaches the
`last_scraped` update — a thrown write propagates beforehand. -/
def processScrapedAdsE (failsOn : AdId → Bool) (brandId : Nat)
    (scrapedAds : List CanonicalAd) (today : Nat) (st : DBState) :
    (DBState × List ProcessedAd) × Option AdId :=
  if brandId ∈ brandIds st then
    let weekStart := getWeekStart today
    let newAdIds := scrapedAds.map (·.ad_id)
    let st0 := if newAdIds ≠ [] then afterDeletion brandId newAdIds st else st
    match mergeLoop failsOn brandId today weekStart (st0, []) scrapedAds with
    | ((st1, out), none) =>
      (({ st1 with brands := touchBrand st1.brands brandId today }, out), none)
    | ((st1, out), some e) => ((st1, out), some e)
  else ((st, []), none)

/-- The Reconciler on the executions where every storage write succeeds. -/
def processScrapedAds (brandId : Nat) (scrapedAds : List CanonicalAd)
    (today : Nat) (st : DBState) : DBState × List ProcessedAd :=
  (processScrapedAdsE (fun _ => false) brandId scrapedAds today st).1

/-- The per-ad `INSERT OR REPLACE` of the scheduled-scrape path
(`runScheduledScrapeAll`): the whole row is rebuilt (columns absent from
its column list — the five analysis tags and `bookmarked` — fall back to
their defaults), `first_seen` is carried over when present, and
`weeks_in_top10` becomes the old value (or 0) plus 1 unconditionally. -/
def scheduledUpsert (brandId today : Nat) (st : DBState) (ad : CanonicalAd) : DBState :=
  let old := vaultLookup st ad.ad_id
  let row : StoredAd :=
    { ad_id := ad.ad_id
      brand_id := brandId
      date_scraped := some today
      rank := ad.rank
      creative_type := some ad.creative_type
      creative_url := ad.creative_url
      video_url := ad.video_url
      ad_copy := ad.ad_copy
      headline := ad.headline
      cta_type := ad.cta_type
      start_date := ad.start_date
      ad_library_link := ad.ad_library_link
      ai_format := none
      ai_hook := none
      ai_visual_style := none
      ai_angle := none
      ai_asset_type := none
      ai_visual_format := none
      ai_messaging_angle := none
      ai_hook_tactic := none
      ai_offer_type := none
      first_seen := some ((old.bind (·.first_seen)).getD today)
      last_seen := some today
      weeks_in_top10 := ((old.map (·.weeks_in_top10)).getD 0) + 1
      bookmarked := false }
  { st with ad_vault := (st.ad_vault.filter fun r => !(r.ad_id = ad.ad_id)) ++ [row] }

/-- One brand's inner loop of the scheduled-scrape path: the transformed
batch is written ad by ad through `INSERT OR REPLACE`. -/
def runScheduledIngestBrand (brandId today : Nat) (ads : List CanonicalAd)
    (st : DBState) : DBState :=
  ads.foldl (scheduledUpsert brandId today) st

/-- The all-five-tags check guarding `analyzeAdCreative` (JS truthiness of
each of the five tag columns). -/
def hasAllFiveTags (r : StoredAd) : Bool :=
  strTruthy r.ai_asset_type && strTruthy r.ai_visual_format &&
  strTruthy r.ai_messaging_angle && strTruthy r.ai_hook_tactic &&
  strTruthy r.ai_offer_type

/-- The untagged-set predicate of the batch-analysis query:
`ai_asset_type IS NULL OR ai_asset_type = ''`. -/
def sqlTagMissing (v : Option String) : Bool :=
  v = none || v = some ""

/-- The rows `runBatchAnalysis` selects for analysis (its ORDER BY does not
affect which rows are selected). -/
def unanalyzedAds (vault : List StoredAd) : List StoredAd :=
  vault.filter fun r => sqlTagMissing r.ai_asset_type

/-- The five categorical tags returned by the AI tagging provider. -/
structure TagAnalysis where
  asset_type : Option String
  visual_format : Option String
  messaging_angle : Option String
  hook_tactic : Option String
  offer_type : Option String
  deriving DecidableEq, Repr

/-- The tags already stored on a row, as `analyzeAdCreative` returns them
when it short-circuits. -/
def cachedTags (r : StoredAd) : TagAnalysis :=
  ⟨r.ai_asset_type, r.ai_visual_format, r.ai_messaging_angle,
   r.ai_hook_tactic, r.ai_offer_type⟩

/-- The provider-call decision of `analyzeAdCreative`: with all five tags
present the stored tags are returned and the provider is not consulted;
otherwise the provider's answer (an opaque input here) is used. -/
def analyzeAdCreative (provider : TagAnalysis) (r : StoredAd) : TagAnalysis :=
  if hasAllFiveTags r then cachedTags r else provider

/-- Core-preservation: `r'` differs from `r` at most in the fields the
per-ad UPDATE may touch other than the longevity counter — `last_seen`,
`rank` and the three media columns.  In particular `weeks_in_top10`,
`first_seen`, `bookmarked` and all nine AI tag columns agree. -/
def SameCore (r r' : StoredAd) : Prop :=
  ∃ ls rk cty cu vu,
    r' = { r with last_seen := ls, rank := rk, creative_type := cty,
                  creative_url := cu, video_url := vu }

/-- Two items do not share a non-empty value of the signal `sig` (the
uniqueness relation of the dedup invariant). -/
def sigDistinct (sig : RawItem → String) (a b : RawItem) : Prop :=
  sig a ≠ "" → sig b ≠ "" → sig a ≠ sig b

/-- The keys of a collapse-pass map. -/
def keysOf (m : List (GKey × GEntry)) : List GKey := m.map (·.1)

/-- The replacement rule of a collapsing group: a candidate replaces the
kept entry only when its timestamp is non-zero and strictly smaller. -/
def groupStep (k : GEntry) (c : RawItem) : GEntry :=
  if startTimestamp c > 0 ∧ startTimestamp c < k.startTimestamp then
    ⟨c, startTimestamp c⟩
  else k

/-- Folding the replacement rule over a group, starting from an optional
currently kept entry. -/
def groupFoldAux : List RawItem → Option GEntry → Option GEntry
  | [], cur => cur
  | c :: rest, cur =>
    groupFoldAux rest
      (match cur with
       | none => some ⟨c, startTimestamp c⟩
       | some k => some (groupStep k c))

/-- The representative a collapse pass keeps for a group, as a function of
the group members in encounter order. -/
def groupRep (l : List RawItem) : Option GEntry := groupFoldAux l none

/-- Well-formedness of a collapse-pass state: keys are distinct, an entry
at a signal key carries that non-empty signal, an entry at an id key
carries that id and an empty signal, an entry at a fresh key carries no id
and an empty signal, and every fresh index is below the counter. -/
def WFState (sig : RawItem → String) (st : GState) : Prop :=
  (keysOf st.m).Nodup ∧
  ∀ p ∈ st.m,
    (∀ s, p.1 = GKey.sig s → sig p.2.item = s ∧ s ≠ "") ∧
    (∀ a, p.1 = GKey.id a → sig p.2.item = "" ∧ adIdOf p.2.item = some a) ∧
    (∀ n, p.1 = GKey.fresh n → sig p.2.item = "" ∧ adIdOf p.2.item = none ∧ n < st.freshn)

/-- Canonical-ad fixture builder for the concrete scenarios below. -/
def mkTestAd (a : AdId) (rank : Int) : CanonicalAd :=
  { ad_id := a, brand_id := 1, rank := rank, creative_type := "image",
    creative_url := none, video_url := none, ad_copy := "", headline := "",
    cta_type := "", start_date := none, ad_library_link := "",
    ai_format := none, ai_hook := none, ai_visual_style := none, ai_angle := none }

/-- Stored-row fixture builder (an unremarkable image ad of brand 1). -/
def mkTestRow (a : AdId) (wk : Int) (lastSeen : Option Nat) (bkm : Bool) : StoredAd :=
  { ad_id := a, brand_id := 1, date_scraped := lastSeen, rank := 1,
    creative_type := some "image", creative_url := none, video_url := none,
    ad_copy := "", headline := "", cta_type := "", start_date := none,
    ad_library_link := "", ai_format := none, ai_hook := none,
    ai_visual_style := none, ai_angle := none, ai_asset_type := none,
    ai_visual_format := none, ai_messaging_angle := none, ai_hook_tactic := none,
    ai_offer_type := none, first_seen := lastSeen, last_seen := lastSeen,
    weeks_in_top10 := wk, bookmarked := bkm }

/-- A database with one registered brand and nothing stored. -/
def emptyState1 : DBState := { brands := [⟨1, none⟩], ad_vault := [], weekly_snapshots := [] }

/-- C1 scenario: one canonical ad ingested twice on the same day through
the scheduled-scrape path. -/
def c1Ad : CanonicalAd := mkTestAd (.real "x1") 1

/-- C3 scenario: the first-seen item of a media group with unknown (0)
start timestamp. -/
def c3ItemUnknownTs : RawItem :=
  { adid := some "a", snapshot := some { images := [.str "x/12345678901_7"] } }

/-- C3 scenario: a later item of the same media group with a known
timestamp. -/
def c3ItemKnownTs : RawItem :=
  { adid := some "b", snapshot := some { images := [.str "x/12345678901_7"] },
    startDateFormatted := some 100 }

/-- C4 scenario: a stale, non-bookmarked stored ad. -/
def c4StaleAd : StoredAd := mkTestRow (.real "stale") 3 (some 90) false

/-- C4 scenario: the database holding only the stale ad. -/
def c4State : DBState :=
  { brands := [⟨1, none⟩], ad_vault := [c4StaleAd], weekly_snapshots := [] }

/-- C5 scenario: an item with an external id but no media fingerprint and
no headline. -/
def c5NoKeyItem : RawItem := { adid := some "dup" }

/-- C5 scenario: a fully empty raw item — no id, no media, no headline. -/
def c5FreshItem : RawItem := {}

/-- C7 scenario: the two ads of the failing batch. -/
def c7Ad1 : CanonicalAd := mkTestAd (.real "f1") 1

/-- C7 scenario: the second ad, never reached. -/
def c7Ad2 : CanonicalAd := mkTestAd (.real "f2") 2

/-- C7 scenario: the storage write for the first ad rejects. -/
def c7FailsFirst : AdId → Bool := fun a => a = AdId.real "f1"

/-- C8 scenario: a row with only `ai_asset_type` populated — a partial tag
set. -/
def partialTaggedAd : StoredAd :=
  { mkTestRow (.real "p1") 1 none false with ai_asset_type := some "ugc" }

/-- C8 scenario: a row with all five tags populated. -/
def fullyTaggedAd : StoredAd :=
  { mkTestRow (.real "p2") 1 none false with
    ai_asset_type := some "ugc", ai_visual_format := some "talking-head",
    ai_messaging_angle := some "social-proof", ai_hook_tactic := some "question",
    ai_offer_type := some "discount" }

/-- C8 scenario: an arbitrary provider answer. -/
def c8Provider : TagAnalysis := ⟨some "statement", none, none, none, none⟩

/-- C2 scenario: a stored ad last seen on day 95 (a Monday) with three
weeks of longevity. -/
def c2Row : StoredAd := mkTestRow (.real "w2") 3 (some 95) false

/-- C2 scenario: the database holding that ad. -/
def c2State : DBState :=
  { brands := [⟨1, none⟩], ad_vault := [c2Row], weekly_snapshots := [] }

/-- C2 scenario: the same creative reappearing in a later cycle. -/
def c2Ad : CanonicalAd := mkTestAd (.real "w2") 1

/-- C4 scenario: a bookmarked stored ad absent from the new batch. -/
def c4BkmRow : StoredAd := mkTestRow (.real "kept") 5 (some 90) true

/-- C4 scenario: the database holding the bookmarked ad and the stale ad. -/
def c4State2 : DBState :=
  { brands := [⟨1, none⟩], ad_vault := [c4BkmRow, c4StaleAd], weekly_snapshots := [] }

/-- C4 scenario: the non-empty replacement batch. -/
def c4Batch : List CanonicalAd := [mkTestAd (.real "new1") 1]

/-!  Dynamic (JS-value-level) model of `transformApifyResults` on malformed
batches.  The typed `RawItem` model above represents only well-formed
records (string-or-absent fields).  The source, however, can receive
`null`/`undefined` batch entries and truthy non-string values in fields it
later applies string methods to, and then throws a `TypeError`:

* `item.adArchiveID` on a `null`/`undefined` entry, in the id-dedup filter;
* `url.match(...)` in `getMediaFingerprint`, when the selected media URL
  of the media pass is a truthy non-string;
* `(...).trim()` in the headline pass, when the selected headline field is
  a truthy non-string.

The definitions below re-run the three passes over values that may carry
these shapes, propagating the thrown `TypeError` as `Except.error ()`.
Non-`null` primitive entries behave like empty records under JS property
access and are representable already.  The canonicalisation of the
survivors applies only `typeof`-guarded accessors and template
interpolation (given `startDateFormatted` absent or a string, as the typed
model assumes), so it factors through the string-coercion erasure
`eraseItem` into the typed `mkCanonical`. -/

theorem find?_map_eq {α β : Type} (f : α → β) (l : List α) (p : β → Bool) :
    (l.map f).find? p = (l.find? fun a => p (f a)).map f := by
  induction l with
  | nil => rfl
  | cons a rest ih =>
    by_cases h : p (f a) = true <;> simp [List.find?_cons, h, ih]

theorem find?_append_eq {α : Type} (l₁ l₂ : List α) (p : α → Bool) :
    (l₁ ++ l₂).find? p =
      match l₁.find? p with
      | some a => some a
      | none => l₂.find? p := by
  induction l₁ with
  | nil => rfl
  | cons a rest ih =>
    by_cases h : p a = true <;> simp [List.find?_cons, h, ih]

theorem find?_congr_mem {α : Type} (l : List α) (p q : α → Bool)
    (h : ∀ a ∈ l, p a = q a) : l.find? p = l.find? q := by
  induction l with
  | nil => rfl
  | cons a rest ih =>
    have ha := h a (by simp)
    by_cases hp : p a = true
    · simp [List.find?_cons, hp, ha ▸ hp]
    · have hq : ¬ q a = true := by rw [← ha]; exact hp
      simp [List.find?_cons, hp, hq]
      exact ih fun a ha' => h a (by simp [ha'])

theorem find?_filter_of_imp {α : Type} (l : List α) (p q : α → Bool)
    (h : ∀ a ∈ l, q a = true → p a = true) :
    (l.filter p).find? q = l.find? q := by
  induction l with
  | nil => rfl
  | cons a rest ih =>
    have hrest : (rest.filter p).find? q = rest.find? q :=
      ih fun a ha hq => h a (by simp [ha]) hq
    by_cases hq : q a = true
    · have hp := h a (by simp) hq
      simp [List.filter_cons, hp, List.find?_cons, hq]
    · by_cases hp : p a = true <;> simp [List.filter_cons, hp, List.find?_cons, hq, hrest]

/-!  C6 — rank reassignment. -/

theorem mkCanonical_rank (brandId n : Nat) (it : RawItem) :
    (mkCanonical brandId n it).rank = (n : Int) + 1 := rfl

theorem mapWithRank_length (brandId n : Nat) (l : List RawItem) :
    (mapWithRank brandId n l).length = l.length := by
  induction l generalizing n with
  | nil => rfl
  | cons it rest ih => simp [mapWithRank, ih]

theorem mapWithRank_ranks (brandId n : Nat) (l : List RawItem) :
    (mapWithRank brandId n l).map (·.rank) =
      (List.range' (n + 1) l.length).map (fun k => (k : Int)) := by
  induction l generalizing n with
  | nil => rfl
  | cons it rest ih =>
    simp [mapWithRank, List.range'_succ, mkCanonical_rank, ih]

/-- C6: for every input batch the Deduplicator emits at most 20 canonical
ads, ranked exactly `1..n` by post-dedup position. -/
theorem c6_rank_reassignment (rs : List RawItem) (brandId : Nat) :
    (transformApifyResults rs brandId).length ≤ 20 ∧
    (transformApifyResults rs brandId).map (·.rank) =
      (List.range' 1 (transformApifyResults rs brandId).length).map (fun k => (k : Int)) := by
  constructor
  · rw [transformApifyResults, mapWithRank_length, dedupItems]
    exact List.length_take_le 20 (uniqueResults rs)
  · rw [transformApifyResults, mapWithRank_ranks, mapWithRank_length]

/-!  C10 — empty-batch reconciliation is deletion-free. -/

theorem mergeLoop_nofail (brandId today ws : Nat) (l : List CanonicalAd)
    (acc : DBState × List ProcessedAd) :
    mergeLoop (fun _ => false) brandId today ws acc l =
      (l.foldl (mergeStep brandId today ws) acc, none) := by
  induction l generalizing acc with
  | nil => rfl
  | cons ad rest ih => simp [mergeLoop, ih]

theorem run_nil_vault (brandId today : Nat) (st : DBState) :
    ((processScrapedAds brandId [] today st).1).ad_vault = st.ad_vault ∧
    ((processScrapedAds brandId [] today st).1).weekly_snapshots = st.weekly_snapshots := by
  unfold processScrapedAds processScrapedAdsE
  by_cases hb : brandId ∈ brandIds st <;> simp [hb, mergeLoop]

/-- C10: reconciling an empty canonical batch deletes nothing — the stored
ads and all weekly snapshot rows are left exactly as they were. -/
theorem c10_empty_batch_frame (brandId today : Nat) (st : DBState) :
    ((processScrapedAds brandId [] today st).1).ad_vault = st.ad_vault ∧
    ((processScrapedAds brandId [] today st).1).weekly_snapshots = st.weekly_snapshots :=
  run_nil_vault brandId today st

/-!  Counterexamples. -/

/-- C1 counterexample: ingesting the identical one-ad canonical batch twice
on the same day through the scheduled-scrape bulk path raises
`weeks_in_top10` from 1 to 2 — the same-week re-ingestion is not
idempotent on this ingestion path. -/
theorem c1_scheduled_double_count_counterexample :
    (runScheduledIngestBrand 1 103 [c1Ad] emptyState1).ad_vault.map (·.weeks_in_top10) = [1] ∧
    (runScheduledIngestBrand 1 103 [c1Ad]
        (runScheduledIngestBrand 1 103 [c1Ad] emptyState1)).ad_vault.map (·.weeks_in_top10)
      = [2] := by
  exact ⟨rfl, rfl⟩

/-- C3 counterexample: two items share a non-empty media fingerprint; the
first-encountered has timestamp 0 (unknown) and the later candidate a
known timestamp 100, yet the kept representative is the unknown-timestamp
item — the known candidate does not replace it. -/
theorem c3_zero_timestamp_counterexample :
    startTimestamp c3ItemUnknownTs = 0 ∧ startTimestamp c3ItemKnownTs = 100 ∧
    mediaSig c3ItemUnknownTs = mediaSig c3ItemKnownTs ∧ mediaSig c3ItemUnknownTs ≠ "" ∧
    (dedupItems [c3ItemUnknownTs, c3ItemKnownTs]).map adIdOf = [some "a"] := by
  refine ⟨rfl, rfl, rfl, by decide, by decide⟩

/-- C4 counterexample: with an empty canonical batch, a stored ad that is
not bookmarked and whose id is in no batch survives reconciliation — the
deletion the claim asserts for every brand batch does not happen. -/
theorem c4_empty_batch_counterexample :
    c4StaleAd.bookmarked = false ∧
    c4StaleAd.ad_id ∉ (([] : List CanonicalAd).map (·.ad_id)) ∧
    ((processScrapedAds 1 [] 100 c4State).1).ad_vault = [c4StaleAd] := by
  refine ⟨rfl, by simp, ?_⟩
  exact (run_nil_vault 1 100 c4State).1

/-- C5 counterexample: two identical input items lacking media fingerprint
and headline but carrying the same non-empty external id collapse in the
identifier pass — they do not both survive as distinct canonical ads. -/
theorem c5_identical_id_counterexample :
    mediaSig c5NoKeyItem = "" ∧ headlineSig c5NoKeyItem = "" ∧
    (dedupItems [c5NoKeyItem, c5NoKeyItem]).length = 1 := by
  refine ⟨rfl, by decide, by decide⟩

/-- C7 counterexample: when the storage write for the first ad of a
two-ad batch fails, the error propagates — the second ad is never merged
(the vault stays empty) instead of processing continuing with a
partial-success report. -/
theorem c7_abort_counterexample :
    (processScrapedAdsE c7FailsFirst 1 [c7Ad1, c7Ad2] 100 emptyState1).2
        = some (AdId.real "f1") ∧
    ((processScrapedAdsE c7FailsFirst 1 [c7Ad1, c7Ad2] 100 emptyState1).1.1).ad_vault = [] := by
  exact ⟨rfl, rfl⟩

/-- C8 counterexample: a row with `ai_asset_type` set but the other four
tag fields null is a partial tag set, yet the batch-analysis query does
not select it — it is treated as tagged, not as untagged. -/
theorem c8_partial_tags_counterexample :
    hasAllFiveTags partialTaggedAd = false ∧
    unanalyzedAds [partialTaggedAd] = [] := by
  exact ⟨rfl, rfl⟩

/-!  C8 (amended) — what the code actually consults. -/

/-- C8 (amended): the batch-analysis untagged set selects exactly the rows
whose `ai_asset_type` is null or empty — the other four tag fields are not
consulted there; a fully tagged row is excluded from the untagged set and
short-circuits `analyzeAdCreative`, while any row failing the all-five
check is sent to the provider. -/
theorem c8_tagging_state_characterization (vault : List StoredAd) (r : StoredAd)
    (p : TagAnalysis) :
    (r ∈ unanalyzedAds vault ↔ r ∈ vault ∧ sqlTagMissing r.ai_asset_type = true) ∧
    (hasAllFiveTags r = true → r ∈ vault →
      r ∉ unanalyzedAds vault ∧ analyzeAdCreative p r = cachedTags r) ∧
    (hasAllFiveTags r = false → analyzeAdCreative p r = p) := by
  refine ⟨?_, ?_, ?_⟩
  · simp [unanalyzedAds, List.mem_filter]
  · intro h5 _
    have hmiss : sqlTagMissing r.ai_asset_type = false := by
      have ht : strTruthy r.ai_asset_type = true := by
        simp [hasAllFiveTags, Bool.and_eq_true] at h5; exact h5.1.1.1.1
      cases hv : r.ai_asset_type with
      | none => rw [hv] at ht; simp [strTruthy] at ht
      | some s =>
        rw [hv] at ht
        simp [strTruthy] at ht
        simp [sqlTagMissing, ht]
    constructor
    · simp [unanalyzedAds, List.mem_filter, hmiss]
    · simp [analyzeAdCreative, h5]
  · intro h5
    simp [analyzeAdCreative, h5]

/-- Closed witness for the C8 characterization at a concrete fully tagged
row. -/
theorem c8_tagging_state_characterization_witness :
    fullyTaggedAd ∉ unanalyzedAds [fullyTaggedAd] ∧
    analyzeAdCreative c8Provider fullyTaggedAd = cachedTags fullyTaggedAd :=
  (c8_tagging_state_characterization [fullyTaggedAd] fullyTaggedAd c8Provider).2.1
    (by decide) (by decide)

/-!  Step-level lemmas about the per-ad merge. -/

theorem updateRow_ad_id (today : Nat) (ad : CanonicalAd) (wk : Int) (r : StoredAd) :
    (updateRow today ad wk r).ad_id = r.ad_id := rfl

theorem newRow_ad_id (b today : Nat) (ad : CanonicalAd) :
    (newRow b today ad).ad_id = ad.ad_id := rfl

theorem mergeVault_some (b today ws : Nat) (st : DBState)
    (ad : CanonicalAd) (ex : StoredAd) (hlk : vaultLookup st ad.ad_id = some ex) :
    (mergeVault b today ws st ad).1.ad_vault =
      st.ad_vault.map fun r =>
        if r.ad_id = ad.ad_id then updateRow today ad (nextWeeks ws ex) r else r := by
  unfold mergeVault
  rw [hlk]

theorem mergeVault_none (b today ws : Nat) (st : DBState)
    (ad : CanonicalAd) (hlk : vaultLookup st ad.ad_id = none) :
    (mergeVault b today ws st ad).1.ad_vault = st.ad_vault ++ [newRow b today ad] := by
  unfold mergeVault
  rw [hlk]

theorem mergeVault_snaps (b today ws : Nat) (st : DBState) (ad : CanonicalAd) :
    (mergeVault b today ws st ad).1.weekly_snapshots = st.weekly_snapshots := by
  unfold mergeVault
  cases vaultLookup st ad.ad_id <;> rfl

theorem mergeVault_brands (b today ws : Nat) (st : DBState) (ad : CanonicalAd) :
    (mergeVault b today ws st ad).1.brands = st.brands := by
  unfold mergeVault
  cases vaultLookup st ad.ad_id <;> rfl

theorem mergeStep_vault_eq (b today ws : Nat) (acc : DBState × List ProcessedAd)
    (ad : CanonicalAd) :
    (mergeStep b today ws acc ad).1.ad_vault = (mergeVault b today ws acc.1 ad).1.ad_vault := rfl

theorem mergeStep_snaps (b today ws : Nat) (acc : DBState × List ProcessedAd)
    (ad : CanonicalAd) :
    (mergeStep b today ws acc ad).1.weekly_snapshots =
      upsertSnapshot acc.1.weekly_snapshots ⟨b, ad.ad_id, ws, ad.rank⟩ := by
  show upsertSnapshot (mergeVault b today ws acc.1 ad).1.weekly_snapshots _ = _
  rw [mergeVault_snaps]

theorem mergeStep_brands (b today ws : Nat) (acc : DBState × List ProcessedAd)
    (ad : CanonicalAd) :
    (mergeStep b today ws acc ad).1.brands = acc.1.brands := by
  show (mergeVault b today ws acc.1 ad).1.brands = acc.1.brands
  rw [mergeVault_brands]

theorem lookup_map_update (vault : List StoredAd) (x : AdId) (today : Nat)
    (ad : CanonicalAd) (wk : Int) :
    (vault.map fun r => if r.ad_id = ad.ad_id then updateRow today ad wk r else r).find?
        (fun r => r.ad_id = x) =
      (vault.find? (fun r => r.ad_id = x)).map
        fun r => if r.ad_id = ad.ad_id then updateRow today ad wk r else r := by
  rw [find?_map_eq]
  congr 1
  apply find?_congr_mem
  intro r _
  by_cases h : r.ad_id = ad.ad_id <;> simp [h, updateRow_ad_id]

theorem vaultLookup_congr (st1 st2 : DBState) (x : AdId)
    (h : st1.ad_vault = st2.ad_vault) : vaultLookup st1 x = vaultLookup st2 x := by
  unfold vaultLookup
  rw [h]

theorem mergeStep_lookup_other (b today ws : Nat) (acc : DBState × List ProcessedAd)
    (ad : CanonicalAd) (x : AdId) (hx : x ≠ ad.ad_id) :
    vaultLookup (mergeStep b today ws acc ad).1 x = vaultLookup acc.1 x := by
  rw [vaultLookup_congr (mergeStep b today ws acc ad).1
    (mergeVault b today ws acc.1 ad).1 x rfl]
  cases hlk : vaultLookup acc.1 ad.ad_id with
  | some ex =>
    unfold vaultLookup
    rw [mergeVault_some b today ws acc.1 ad ex hlk, lookup_map_update]
    cases hfind : acc.1.ad_vault.find? (fun r => r.ad_id = x) with
    | none => simp
    | some r0 =>
      have hr0 : r0.ad_id = x := by simpa using List.find?_some hfind
      have hne : ¬ r0.ad_id = ad.ad_id := by rw [hr0]; exact hx
      simp [hne]
  | none =>
    unfold vaultLookup
    rw [mergeVault_none b today ws acc.1 ad hlk, find?_append_eq]
    have hnew : ¬ ((newRow b today ad).ad_id = x) := by
      rw [newRow_ad_id]; exact fun h => hx h.symm
    cases hfind : acc.1.ad_vault.find? (fun r => r.ad_id = x) <;>
      simp [hfind, List.find?, hnew]

theorem mergeStep_lookup_self_some (b today ws : Nat) (acc : DBState × List ProcessedAd)
    (ad : CanonicalAd) (ex : StoredAd)
    (hlk : vaultLookup acc.1 ad.ad_id = some ex) :
    vaultLookup (mergeStep b today ws acc ad).1 ad.ad_id =
      some (updateRow today ad (nextWeeks ws ex) ex) := by
  have hex : ex.ad_id = ad.ad_id := by simpa using List.find?_some hlk
  rw [vaultLookup_congr (mergeStep b today ws acc ad).1
    (mergeVault b today ws acc.1 ad).1 ad.ad_id rfl]
  unfold vaultLookup
  rw [mergeVault_some b today ws acc.1 ad ex hlk, lookup_map_update]
  rw [show acc.1.ad_vault.find? (fun r => r.ad_id = ad.ad_id) = some ex from hlk]
  simp [hex]

theorem mergeStep_lookup_self_none (b today ws : Nat) (acc : DBState × List ProcessedAd)
    (ad : CanonicalAd) (hlk : vaultLookup acc.1 ad.ad_id = none) :
    vaultLookup (mergeStep b today ws acc ad).1 ad.ad_id =
      some (newRow b today ad) := by
  rw [vaultLookup_congr (mergeStep b today ws acc ad).1
    (mergeVault b today ws acc.1 ad).1 ad.ad_id rfl]
  unfold vaultLookup
  rw [mergeVault_none b today ws acc.1 ad hlk, find?_append_eq]
  rw [show acc.1.ad_vault.find? (fun r => r.ad_id = ad.ad_id) = none from hlk]
  simp [List.find?, newRow_ad_id]

/-!  Core-preservation lemmas. -/

theorem sameCore_refl (r : StoredAd) : SameCore r r :=
  ⟨r.last_seen, r.rank, r.creative_type, r.creative_url, r.video_url, by cases r; rfl⟩

theorem sameCore_trans (r r' r'' : StoredAd) (h1 : SameCore r r') (h2 : SameCore r' r'') :
    SameCore r r'' := by
  obtain ⟨ls1, rk1, cty1, cu1, vu1, h1⟩ := h1
  obtain ⟨ls2, rk2, cty2, cu2, vu2, h2⟩ := h2
  refine ⟨ls2, rk2, cty2, cu2, vu2, ?_⟩
  rw [h2, h1]

theorem sameCore_weeks (r r' : StoredAd) (h : SameCore r r') :
    r'.weeks_in_top10 = r.weeks_in_top10 := by
  obtain ⟨ls, rk, cty, cu, vu, h⟩ := h
  rw [h]

theorem sameCore_first_seen (r r' : StoredAd) (h : SameCore r r') :
    r'.first_seen = r.first_seen := by
  obtain ⟨ls, rk, cty, cu, vu, h⟩ := h
  rw [h]

theorem sameCore_brand (r r' : StoredAd) (h : SameCore r r') :
    r'.brand_id = r.brand_id := by
  obtain ⟨ls, rk, cty, cu, vu, h⟩ := h
  rw [h]

theorem sameCore_bookmarked (r r' : StoredAd) (h : SameCore r r') :
    r'.bookmarked = r.bookmarked := by
  obtain ⟨ls, rk, cty, cu, vu, h⟩ := h
  rw [h]

theorem sameCore_ai (r r' : StoredAd) (h : SameCore r r') :
    r'.ai_format = r.ai_format ∧ r'.ai_hook = r.ai_hook ∧
    r'.ai_visual_style = r.ai_visual_style ∧ r'.ai_angle = r.ai_angle ∧
    r'.ai_asset_type = r.ai_asset_type ∧ r'.ai_visual_format = r.ai_visual_format ∧
    r'.ai_messaging_angle = r.ai_messaging_angle ∧ r'.ai_hook_tactic = r.ai_hook_tactic ∧
    r'.ai_offer_type = r.ai_offer_type := by
  obtain ⟨ls, rk, cty, cu, vu, h⟩ := h
  rw [h]
  exact ⟨rfl, rfl, rfl, rfl, rfl, rfl, rfl, rfl, rfl⟩

theorem updateRow_sameCore (today : Nat) (ad : CanonicalAd) (wk : Int) (r : StoredAd)
    (h : wk = r.weeks_in_top10) : SameCore r (updateRow today ad wk r) := by
  refine ⟨some today, ad.rank, coalesce (some ad.creative_type) r.creative_type,
    coalesce ad.creative_url r.creative_url, coalesce ad.video_url r.video_url, ?_⟩
  rw [updateRow, h]

theorem updateRow_last_seen (today : Nat) (ad : CanonicalAd) (wk : Int) (r : StoredAd) :
    (updateRow today ad wk r).last_seen = some today := rfl

theorem updateRow_weeks (today : Nat) (ad : CanonicalAd) (wk : Int) (r : StoredAd) :
    (updateRow today ad wk r).weeks_in_top10 = wk := rfl

theorem nextWeeks_same (ws : Nat) (r : StoredAd) (dl : Nat)
    (hls : r.last_seen = some dl) (hw : getWeekStart dl = ws) :
    nextWeeks ws r = r.weeks_in_top10 := by
  unfold nextWeeks
  rw [hls]
  simp [hw]

theorem nextWeeks_incr (ws : Nat) (r : StoredAd) (dl : Nat)
    (hls : r.last_seen = some dl) (hw : getWeekStart dl ≠ ws) :
    nextWeeks ws r = r.weeks_in_top10 + 1 := by
  unfold nextWeeks
  rw [hls]
  simp [hw]

/-!  Fold-level lemmas about the merge loop. -/

theorem foldMerge_lookup_not_mem (b today ws : Nat) (l : List CanonicalAd)
    (acc : DBState × List ProcessedAd) (x : AdId) (hx : x ∉ l.map (·.ad_id)) :
    vaultLookup (l.foldl (mergeStep b today ws) acc).1 x = vaultLookup acc.1 x := by
  induction l generalizing acc with
  | nil => rfl
  | cons a rest ih =>
    simp only [List.map_cons, List.mem_cons, not_or] at hx
    rw [List.foldl_cons, ih (mergeStep b today ws acc a) hx.2,
      mergeStep_lookup_other b today ws acc a x hx.1]

theorem foldMerge_sameweek (b today ws : Nat) (l : List CanonicalAd)
    (acc : DBState × List ProcessedAd) (x : AdId) (r : StoredAd)
    (hw : getWeekStart today = ws)
    (hlk : vaultLookup acc.1 x = some r)
    (hr : ∃ dl, r.last_seen = some dl ∧ getWeekStart dl = ws) :
    ∃ r', vaultLookup (l.foldl (mergeStep b today ws) acc).1 x = some r' ∧
      SameCore r r' ∧ (r'.last_seen = r.last_seen ∨ r'.last_seen = some today) := by
  induction l generalizing acc r with
  | nil => exact ⟨r, hlk, sameCore_refl r, Or.inl rfl⟩
  | cons a rest ih =>
    rw [List.foldl_cons]
    by_cases hxa : x = a.ad_id
    · subst hxa
      have hstep := mergeStep_lookup_self_some b today ws acc a r hlk
      obtain ⟨dl, hls, hdl⟩ := hr
      have hwk : nextWeeks ws r = r.weeks_in_top10 := nextWeeks_same ws r dl hls hdl
      set r1 := updateRow today a (nextWeeks ws r) r with hr1
      have hcore1 : SameCore r r1 := updateRow_sameCore today a (nextWeeks ws r) r hwk
      obtain ⟨r', hlk', hcore2, hls2⟩ := ih (mergeStep b today ws acc a) r1 hstep
        ⟨today, updateRow_last_seen today a (nextWeeks ws r) r, hw⟩
      refine ⟨r', hlk', sameCore_trans r r1 r' hcore1 hcore2, ?_⟩
      rcases hls2 with h | h
      · exact Or.inr (h.trans (updateRow_last_seen today a (nextWeeks ws r) r))
      · exact Or.inr h
    · have hstep := mergeStep_lookup_other b today ws acc a x hxa
      exact ih (mergeStep b today ws acc a) r (hstep.trans hlk) hr

theorem foldMerge_incr (b today ws : Nat) (l : List CanonicalAd)
    (acc : DBState × List ProcessedAd) (x : AdId) (r : StoredAd) (dl : Nat)
    (hw : getWeekStart today = ws)
    (hlk : vaultLookup acc.1 x = some r)
    (hls : r.last_seen = some dl) (hne : getWeekStart dl ≠ ws)
    (hx : x ∈ l.map (·.ad_id)) :
    ∃ r', vaultLookup (l.foldl (mergeStep b today ws) acc).1 x = some r' ∧
      r'.weeks_in_top10 = r.weeks_in_top10 + 1 ∧ r'.last_seen = some today := by
  induction l generalizing acc with
  | nil => simp at hx
  | cons a rest ih =>
    rw [List.foldl_cons]
    by_cases hxa : x = a.ad_id
    · subst hxa
      have hstep := mergeStep_lookup_self_some b today ws acc a r hlk
      have hwk : nextWeeks ws r = r.weeks_in_top10 + 1 := nextWeeks_incr ws r dl hls hne
      set r1 := updateRow today a (nextWeeks ws r) r with hr1
      obtain ⟨r', hlk', hcore, hls2⟩ := foldMerge_sameweek b today ws rest
        (mergeStep b today ws acc a) a.ad_id r1 hw hstep
        ⟨today, updateRow_last_seen today a (nextWeeks ws r) r, hw⟩
      refine ⟨r', hlk', ?_, ?_⟩
      · rw [sameCore_weeks r1 r' hcore, hr1, updateRow_weeks, hwk]
      · rcases hls2 with h | h
        · exact h.trans (updateRow_last_seen today a (nextWeeks ws r) r)
        · exact h
    · have hstep := mergeStep_lookup_other b today ws acc a x hxa
      have hx' : x ∈ rest.map (·.ad_id) := by
        simp only [List.map_cons, List.mem_cons] at hx
        exact hx.resolve_left hxa
      exact ih (mergeStep b today ws acc a) (hstep.trans hlk) hx'

theorem foldMerge_insert (b today ws : Nat) (l : List CanonicalAd)
    (acc : DBState × List ProcessedAd) (x : AdId)
    (hw : getWeekStart today = ws)
    (hlk : vaultLookup acc.1 x = none)
    (hx : x ∈ l.map (·.ad_id))
    (hai : ∀ a ∈ l, a.ad_id = x → a.ai_format = none ∧ a.ai_hook = none ∧
      a.ai_visual_style = none ∧ a.ai_angle = none) :
    ∃ r', vaultLookup (l.foldl (mergeStep b today ws) acc).1 x = some r' ∧
      r'.brand_id = b ∧ r'.bookmarked = false ∧
      r'.first_seen = some today ∧ r'.last_seen = some today ∧
      r'.weeks_in_top10 = 1 ∧
      r'.ai_format = none ∧ r'.ai_hook = none ∧ r'.ai_visual_style = none ∧
      r'.ai_angle = none ∧ r'.ai_asset_type = none ∧ r'.ai_visual_format = none ∧
      r'.ai_messaging_angle = none ∧ r'.ai_hook_tactic = none ∧
      r'.ai_offer_type = none := by
  induction l generalizing acc with
  | nil => simp at hx
  | cons a rest ih =>
    rw [List.foldl_cons]
    by_cases hxa : a.ad_id = x
    · have hlk0 : vaultLookup acc.1 a.ad_id = none := by rw [hxa]; exact hlk
      have hstep := mergeStep_lookup_self_none b today ws acc a hlk0
      have hstep' : vaultLookup (mergeStep b today ws acc a).1 x = some (newRow b today a) := by
        rw [← hxa]; exact hstep
      set r1 := newRow b today a with hr1
      obtain ⟨hf, hh, hv, han⟩ := hai a (by simp) hxa
      obtain ⟨r', hlk', hcore, hls2⟩ := foldMerge_sameweek b today ws rest
        (mergeStep b today ws acc a) x r1 hw hstep' ⟨today, rfl, hw⟩
      have hcw := sameCore_weeks r1 r' hcore
      have hcf := sameCore_first_seen r1 r' hcore
      have hcb := sameCore_brand r1 r' hcore
      have hcbk := sameCore_bookmarked r1 r' hcore
      have hcai := sameCore_ai r1 r' hcore
      refine ⟨r', hlk', ?_, ?_, ?_, ?_, ?_, ?_, ?_, ?_, ?_, ?_, ?_, ?_, ?_, ?_⟩
      · rw [hcb]; rfl
      · rw [hcbk]; rfl
      · rw [hcf]; rfl
      · rcases hls2 with h | h
        · rw [h]; rfl
        · exact h
      · rw [hcw]; rfl
      · rw [hcai.1, hr1]; show orNull a.ai_format = none; rw [hf]; rfl
      · rw [hcai.2.1, hr1]; show orNull a.ai_hook = none; rw [hh]; rfl
      · rw [hcai.2.2.1, hr1]; show orNull a.ai_visual_style = none; rw [hv]; rfl
      · rw [hcai.2.2.2.1, hr1]; show orNull a.ai_angle = none; rw [han]; rfl
      · rw [hcai.2.2.2.2.1]; rfl
      · rw [hcai.2.2.2.2.2.1]; rfl
      · rw [hcai.2.2.2.2.2.2.1]; rfl
      · rw [hcai.2.2.2.2.2.2.2.1]; rfl
      · rw [hcai.2.2.2.2.2.2.2.2]; rfl
    · have hxa' : x ≠ a.ad_id := fun h => hxa h.symm
      have hstep := mergeStep_lookup_other b today ws acc a x hxa'
      have hx' : x ∈ rest.map (·.ad_id) := by
        simp only [List.map_cons, List.mem_cons] at hx
        exact hx.resolve_left fun h => hxa h.symm
      exact ih (mergeStep b today ws acc a) (hstep.trans hlk) hx'
        (fun a' ha' => hai a' (by simp [ha']))

theorem foldMerge_touch (b today ws : Nat) (l : List CanonicalAd)
    (acc : DBState × List ProcessedAd) (x : AdId)
    (hw : getWeekStart today = ws) (hx : x ∈ l.map (·.ad_id)) :
    ∃ r', vaultLookup (l.foldl (mergeStep b today ws) acc).1 x = some r' ∧
      r'.last_seen = some today := by
  induction l generalizing acc with
  | nil => simp at hx
  | cons a rest ih =>
    rw [List.foldl_cons]
    by_cases hxa : x = a.ad_id
    · subst hxa
      cases hlk : vaultLookup acc.1 a.ad_id with
      | some r =>
        have hstep := mergeStep_lookup_self_some b today ws acc a r hlk
        obtain ⟨r', hlk', hcore, hls2⟩ := foldMerge_sameweek b today ws rest
          (mergeStep b today ws acc a) a.ad_id
          (updateRow today a (nextWeeks ws r) r) hw hstep ⟨today, rfl, hw⟩
        refine ⟨r', hlk', ?_⟩
        rcases hls2 with h | h
        · exact h
        · exact h
      | none =>
        have hstep := mergeStep_lookup_self_none b today ws acc a hlk
        obtain ⟨r', hlk', hcore, hls2⟩ := foldMerge_sameweek b today ws rest
          (mergeStep b today ws acc a) a.ad_id (newRow b today a) hw hstep
          ⟨today, rfl, hw⟩
        refine ⟨r', hlk', ?_⟩
        rcases hls2 with h | h
        · exact h
        · exact h
    · have hstep := mergeStep_lookup_other b today ws acc a x hxa
      have hx' : x ∈ rest.map (·.ad_id) := by
        simp only [List.map_cons, List.mem_cons] at hx
        exact hx.resolve_left hxa
      obtain ⟨r', hlk', hls⟩ := ih (mergeStep b today ws acc a) hx'
      exact ⟨r', hlk', hls⟩

/-!  Membership invariants of the merge loop. -/

theorem updateRow_brand (today : Nat) (ad : CanonicalAd) (wk : Int) (r : StoredAd) :
    (updateRow today ad wk r).brand_id = r.brand_id := rfl

theorem updateRow_bookmarked (today : Nat) (ad : CanonicalAd) (wk : Int) (r : StoredAd) :
    (updateRow today ad wk r).bookmarked = r.bookmarked := rfl

theorem mergeStep_vault_mem (b today ws : Nat) (acc : DBState × List ProcessedAd)
    (ad : CanonicalAd) (Q : StoredAd → Prop)
    (h0 : ∀ r ∈ acc.1.ad_vault, Q r)
    (hupd : ∀ r wk, Q r → Q (updateRow today ad wk r))
    (hnew : Q (newRow b today ad)) :
    ∀ r ∈ (mergeStep b today ws acc ad).1.ad_vault, Q r := by
  intro r hr
  rw [mergeStep_vault_eq] at hr
  cases hlk : vaultLookup acc.1 ad.ad_id with
  | some ex =>
    rw [mergeVault_some b today ws acc.1 ad ex hlk] at hr
    obtain ⟨r0, hr0, hEq⟩ := List.mem_map.mp hr
    by_cases h : r0.ad_id = ad.ad_id
    · rw [if_pos h] at hEq
      exact hEq ▸ hupd r0 (nextWeeks ws ex) (h0 r0 hr0)
    · rw [if_neg h] at hEq
      exact hEq ▸ h0 r0 hr0
  | none =>
    rw [mergeVault_none b today ws acc.1 ad hlk] at hr
    rcases List.mem_append.mp hr with h | h
    · exact h0 r h
    · rw [List.mem_singleton.mp h]
      exact hnew

theorem foldMerge_vault_invariant (b today ws : Nat) (l : List CanonicalAd)
    (acc : DBState × List ProcessedAd) (Q : StoredAd → Prop)
    (h0 : ∀ r ∈ acc.1.ad_vault, Q r)
    (hupd : ∀ (ad : CanonicalAd) r wk, ad ∈ l → Q r → Q (updateRow today ad wk r))
    (hnew : ∀ ad ∈ l, Q (newRow b today ad)) :
    ∀ r ∈ (l.foldl (mergeStep b today ws) acc).1.ad_vault, Q r := by
  induction l generalizing acc with
  | nil => exact h0
  | cons a rest ih =>
    rw [List.foldl_cons]
    refine ih (mergeStep b today ws acc a) ?_
      (fun ad r wk had => hupd ad r wk (by simp [had]))
      (fun ad had => hnew ad (by simp [had]))
    exact mergeStep_vault_mem b today ws acc a Q h0
      (fun r wk => hupd a r wk (by simp)) (hnew a (by simp))

theorem mergeStep_vault_mem_pres (b today ws : Nat) (acc : DBState × List ProcessedAd)
    (ad : CanonicalAd) (r : StoredAd) (hr : r ∈ acc.1.ad_vault)
    (hx : r.ad_id ≠ ad.ad_id) :
    r ∈ (mergeStep b today ws acc ad).1.ad_vault := by
  rw [mergeStep_vault_eq]
  cases hlk : vaultLookup acc.1 ad.ad_id with
  | some ex =>
    rw [mergeVault_some b today ws acc.1 ad ex hlk]
    exact List.mem_map.mpr ⟨r, hr, by rw [if_neg hx]⟩
  | none =>
    rw [mergeVault_none b today ws acc.1 ad hlk]
    exact List.mem_append_left _ hr

theorem foldMerge_vault_mem_pres (b today ws : Nat) (l : List CanonicalAd)
    (acc : DBState × List ProcessedAd) (r : StoredAd) (hr : r ∈ acc.1.ad_vault)
    (hx : r.ad_id ∉ l.map (·.ad_id)) :
    r ∈ (l.foldl (mergeStep b today ws) acc).1.ad_vault := by
  induction l generalizing acc with
  | nil => exact hr
  | cons a rest ih =>
    simp only [List.map_cons, List.mem_cons, not_or] at hx
    rw [List.foldl_cons]
    exact ih (mergeStep b today ws acc a)
      (mergeStep_vault_mem_pres b today ws acc a r hr hx.1) hx.2

theorem upsertSnapshot_mem (snaps : List WeeklySnapshot) (s t : WeeklySnapshot)
    (ht : t ∈ upsertSnapshot snaps s) : t ∈ snaps ∨ t = s := by
  rcases List.mem_append.mp ht with h | h
  · exact Or.inl (List.mem_filter.mp h).1
  · exact Or.inr (List.mem_singleton.mp h)

theorem foldMerge_snaps_invariant (b today ws : Nat) (l : List CanonicalAd)
    (acc : DBState × List ProcessedAd) (R : WeeklySnapshot → Prop)
    (h0 : ∀ s ∈ acc.1.weekly_snapshots, R s)
    (hnew : ∀ ad ∈ l, R ⟨b, ad.ad_id, ws, ad.rank⟩) :
    ∀ s ∈ (l.foldl (mergeStep b today ws) acc).1.weekly_snapshots, R s := by
  induction l generalizing acc with
  | nil => exact h0
  | cons a rest ih =>
    rw [List.foldl_cons]
    refine ih (mergeStep b today ws acc a) ?_ (fun ad had => hnew ad (by simp [had]))
    intro s hs
    rw [mergeStep_snaps] at hs
    rcases upsertSnapshot_mem acc.1.weekly_snapshots _ s hs with h | h
    · exact h0 s h
    · exact h ▸ hnew a (by simp)

/-!  Lemmas about the cleanup (deletion) step. -/

theorem deleteCond_false_of_mem (b : Nat) (ids : List AdId) (r : StoredAd)
    (hx : r.ad_id ∈ ids) : deleteCond b ids r = false := by
  unfold deleteCond
  simp [hx]

theorem afterDeletion_lookup (b : Nat) (ids : List AdId) (st : DBState) (x : AdId)
    (hcl : ∀ r ∈ st.ad_vault, r.ad_id = x → deleteCond b ids r = false) :
    vaultLookup (afterDeletion b ids st) x = vaultLookup st x := by
  unfold vaultLookup afterDeletion
  apply find?_filter_of_imp
  intro r hr hq
  have he : r.ad_id = x := by simpa using hq
  rw [hcl r hr he]
  rfl

theorem afterDeletion_lookup_mem (b : Nat) (ids : List AdId) (st : DBState) (x : AdId)
    (hx : x ∈ ids) :
    vaultLookup (afterDeletion b ids st) x = vaultLookup st x :=
  afterDeletion_lookup b ids st x fun r _ he =>
    deleteCond_false_of_mem b ids r (he ▸ hx)

theorem afterDeletion_brands (b : Nat) (ids : List AdId) (st : DBState) :
    (afterDeletion b ids st).brands = st.brands := rfl

theorem afterDeletion_vault_mem (b : Nat) (ids : List AdId) (st : DBState) (r : StoredAd) :
    r ∈ (afterDeletion b ids st).ad_vault ↔
      r ∈ st.ad_vault ∧ deleteCond b ids r = false := by
  unfold afterDeletion
  simp [List.mem_filter]

theorem afterDeletion_snaps_mem (b : Nat) (ids : List AdId) (st : DBState)
    (s : WeeklySnapshot) :
    s ∈ (afterDeletion b ids st).weekly_snapshots ↔
      s ∈ st.weekly_snapshots ∧
        s.ad_id ∉ (st.ad_vault.filter (deleteCond b ids)).map (·.ad_id) := by
  unfold afterDeletion
  simp [List.mem_filter]

/-!  Top-level equations for the Reconciler. -/

theorem run_eq (b today : Nat) (batch : List CanonicalAd) (st : DBState)
    (hb : b ∈ brandIds st) (hne : batch ≠ []) :
    (processScrapedAds b batch today st).1 =
      { (batch.foldl (mergeStep b today (getWeekStart today))
          (afterDeletion b (batch.map (·.ad_id)) st, [])).1 with
        brands := touchBrand (batch.foldl (mergeStep b today (getWeekStart today))
          (afterDeletion b (batch.map (·.ad_id)) st, [])).1.brands b today } := by
  unfold processScrapedAds processScrapedAdsE
  have hne' : batch.map (·.ad_id) ≠ [] := by simpa using hne
  simp [hb, hne', mergeLoop_nofail]

theorem run_not_mem (b today : Nat) (batch : List CanonicalAd) (st : DBState)
    (hb : b ∉ brandIds st) :
    (processScrapedAds b batch today st).1 = st := by
  unfold processScrapedAds processScrapedAdsE
  simp [hb]

theorem foldMerge_brands (b today ws : Nat) (l : List CanonicalAd)
    (acc : DBState × List ProcessedAd) :
    (l.foldl (mergeStep b today ws) acc).1.brands = acc.1.brands := by
  induction l generalizing acc with
  | nil => rfl
  | cons a rest ih =>
    rw [List.foldl_cons, ih (mergeStep b today ws acc a), mergeStep_brands]

theorem touchBrand_ids (brs : List BrandRow) (b today : Nat) :
    (touchBrand brs b today).map (·.id) = brs.map (·.id) := by
  unfold touchBrand
  rw [List.map_map]
  apply List.map_congr_left
  intro br _
  by_cases h : br.id = b <;> simp [h]

theorem run_brandIds (b today : Nat) (batch : List CanonicalAd) (st : DBState) :
    brandIds (processScrapedAds b batch today st).1 = brandIds st := by
  by_cases hb : b ∈ brandIds st
  · by_cases hne : batch = []
    · subst hne
      unfold processScrapedAds processScrapedAdsE
      rw [if_pos hb]
      show brandIds { st with brands := touchBrand st.brands b today } = brandIds st
      show (touchBrand st.brands b today).map (·.id) = st.brands.map (·.id)
      exact touchBrand_ids st.brands b today
    · rw [run_eq b today batch st hb hne]
      show (touchBrand _ b today).map (·.id) = _
      rw [touchBrand_ids, foldMerge_brands, afterDeletion_brands]
      rfl
  · rw [run_not_mem b today batch st hb]

/-- After a successful non-empty reconciliation, every remaining row of
the brand that is not bookmarked carries an ad id of the batch. -/
theorem run_clean (b today : Nat) (batch : List CanonicalAd) (st : DBState)
    (hb : b ∈ brandIds st) (hne : batch ≠ []) :
    ∀ r ∈ ((processScrapedAds b batch today st).1).ad_vault,
      r.brand_id = b → r.bookmarked = false → r.ad_id ∈ batch.map (·.ad_id) := by
  rw [run_eq b today batch st hb hne]
  show ∀ r ∈ (batch.foldl (mergeStep b today (getWeekStart today))
    (afterDeletion b (batch.map (·.ad_id)) st, [])).1.ad_vault, _
  apply foldMerge_vault_invariant
  · intro r hr
    rw [show (afterDeletion b (batch.map (·.ad_id)) st, ([] : List ProcessedAd)).1
        = afterDeletion b (batch.map (·.ad_id)) st from rfl] at hr
    obtain ⟨_, hcond⟩ := (afterDeletion_vault_mem b (batch.map (·.ad_id)) st r).mp hr
    intro hbr hbk
    unfold deleteCond at hcond
    simp [hbr, hbk] at hcond
    obtain ⟨a, ha, hae⟩ := hcond
    exact hae ▸ List.mem_map_of_mem (·.ad_id) ha
  · intro ad r wk _ hq hbr hbk
    rw [updateRow_brand] at hbr
    rw [updateRow_bookmarked] at hbk
    exact hq hbr hbk
  · intro ad had _ _
    rw [newRow_ad_id]
    exact List.mem_map_of_mem _ had

/-!  The main Reconciler claims. -/

/-- C1 (amended): same-week re-ingestion is idempotent for the longevity
counter on the `processScrapedAds` reconciliation path — re-ingesting the
identical canonical batch in the same Monday-anchored week leaves every
stored ad's `weeks_in_top10` unchanged.  (The scheduled-scrape bulk path
increments the counter unconditionally instead; see the counterexample.) -/
theorem c1_reconciler_sameweek_idempotent (b : Nat) (batch : List CanonicalAd)
    (d1 d2 : Nat) (st : DBState) (hw : getWeekStart d1 = getWeekStart d2) (x : AdId) :
    (vaultLookup ((processScrapedAds b batch d2
        ((processScrapedAds b batch d1 st).1)).1) x).map (·.weeks_in_top10) =
      (vaultLookup ((processScrapedAds b batch d1 st).1) x).map (·.weeks_in_top10) := by
  by_cases hb : b ∈ brandIds st
  · by_cases hbe : batch = []
    · subst hbe
      have h2 := (run_nil_vault b d2 ((processScrapedAds b [] d1 st).1)).1
      rw [vaultLookup_congr ((processScrapedAds b [] d2
        ((processScrapedAds b [] d1 st).1)).1) ((processScrapedAds b [] d1 st).1) x h2]
    · set st1 := (processScrapedAds b batch d1 st).1 with hst1
      have hb1 : b ∈ brandIds st1 := by rw [hst1, run_brandIds]; exact hb
      by_cases hx : x ∈ batch.map (·.ad_id)
      · have hrun1 := run_eq b d1 batch st hb hbe
        obtain ⟨r, hlkr, hlsr⟩ := foldMerge_touch b d1 (getWeekStart d1) batch
          (afterDeletion b (batch.map (·.ad_id)) st, []) x rfl hx
        have hlk1 : vaultLookup st1 x = some r := by
          rw [hst1, hrun1]; exact hlkr
        have hrun2 := run_eq b d2 batch st1 hb1 hbe
        have hdel : vaultLookup (afterDeletion b (batch.map (·.ad_id)) st1) x
            = vaultLookup st1 x :=
          afterDeletion_lookup_mem b (batch.map (·.ad_id)) st1 x hx
        obtain ⟨r', hlk2, hcore, _⟩ := foldMerge_sameweek b d2 (getWeekStart d2) batch
          (afterDeletion b (batch.map (·.ad_id)) st1, []) x r rfl
          (by rw [show (afterDeletion b (batch.map (·.ad_id)) st1,
              ([] : List ProcessedAd)).1 = afterDeletion b (batch.map (·.ad_id)) st1
              from rfl, hdel]; exact hlk1)
          ⟨d1, hlsr, hw⟩
        have hlk2' : vaultLookup ((processScrapedAds b batch d2 st1).1) x = some r' := by
          rw [hrun2]; exact hlk2
        rw [hlk2', hlk1]
        simp [sameCore_weeks r r' hcore]
      · have hclean := run_clean b d1 batch st hb hbe
        have hcl : ∀ r ∈ st1.ad_vault, r.ad_id = x →
            deleteCond b (batch.map (·.ad_id)) r = false := by
          intro r hr he
          by_cases hbr : r.brand_id = b
          · by_cases hbk : r.bookmarked
            · unfold deleteCond; simp [hbk]
            · have hmem := hclean r (by rw [hst1] at hr; exact hr) hbr (by simpa using hbk)
              exact absurd (he ▸ hmem) hx
          · unfold deleteCond; simp [hbr]
        have hrun2 := run_eq b d2 batch st1 hb1 hbe
        have hdel := afterDeletion_lookup b (batch.map (·.ad_id)) st1 x hcl
        have hfold := foldMerge_lookup_not_mem b d2 (getWeekStart d2) batch
          (afterDeletion b (batch.map (·.ad_id)) st1, []) x hx
        have hsame : vaultLookup ((processScrapedAds b batch d2 st1).1) x
            = vaultLookup st1 x := by
          rw [hrun2]; exact hfold.trans hdel
        rw [hsame]
  · have hb1 : b ∉ brandIds ((processScrapedAds b batch d1 st).1) := by
      rw [run_brandIds]; exact hb
    rw [run_not_mem b d2 batch _ hb1]

/-- Closed witness: a one-ad batch ingested on day 103 and again on day
104 of the same week keeps its longevity counter. -/
theorem c1_reconciler_sameweek_idempotent_witness :
    getWeekStart 103 = getWeekStart 104 ∧
    (vaultLookup ((processScrapedAds 1 [c1Ad] 104
        ((processScrapedAds 1 [c1Ad] 103 emptyState1).1)).1) (AdId.real "x1")).map
          (·.weeks_in_top10) =
      (vaultLookup ((processScrapedAds 1 [c1Ad] 103 emptyState1).1) (AdId.real "x1")).map
        (·.weeks_in_top10) :=
  ⟨by decide, c1_reconciler_sameweek_idempotent 1 [c1Ad] 103 104 emptyState1
    (by decide) (AdId.real "x1")⟩

/-- C2: monotonic longevity accounting — a stored ad reappearing in a
batch whose stored `last_seen` lies in a different (non-null) week gains
exactly one week of longevity; an ad not previously stored is created with
`first_seen = last_seen = today`, `weeks_in_top10 = 1` and all AI tag
fields null. -/
theorem c2_longevity_accounting (b today : Nat) (batch : List CanonicalAd)
    (st : DBState) (ad : CanonicalAd) (hb : b ∈ brandIds st) (had : ad ∈ batch) :
    (∀ ex dl, vaultLookup st ad.ad_id = some ex → ex.last_seen = some dl →
      getWeekStart dl ≠ getWeekStart today →
      ∃ r', vaultLookup ((processScrapedAds b batch today st).1) ad.ad_id = some r' ∧
        r'.weeks_in_top10 = ex.weeks_in_top10 + 1 ∧ r'.last_seen = some today) ∧
    (vaultLookup st ad.ad_id = none →
      (∀ a ∈ batch, a.ad_id = ad.ad_id → a.ai_format = none ∧ a.ai_hook = none ∧
        a.ai_visual_style = none ∧ a.ai_angle = none) →
      ∃ r', vaultLookup ((processScrapedAds b batch today st).1) ad.ad_id = some r' ∧
        r'.brand_id = b ∧ r'.bookmarked = false ∧
        r'.first_seen = some today ∧ r'.last_seen = some today ∧
        r'.weeks_in_top10 = 1 ∧
        r'.ai_format = none ∧ r'.ai_hook = none ∧ r'.ai_visual_style = none ∧
        r'.ai_angle = none ∧ r'.ai_asset_type = none ∧ r'.ai_visual_format = none ∧
        r'.ai_messaging_angle = none ∧ r'.ai_hook_tactic = none ∧
        r'.ai_offer_type = none) := by
  have hne : batch ≠ [] := by intro h; rw [h] at had; simp at had
  have hxm : ad.ad_id ∈ batch.map (·.ad_id) := List.mem_map_of_mem _ had
  have hrun := run_eq b today batch st hb hne
  have hdel := afterDeletion_lookup_mem b (batch.map (·.ad_id)) st ad.ad_id hxm
  constructor
  · intro ex dl hex hdl hnew
    obtain ⟨r', hlk', hwk, hls⟩ := foldMerge_incr b today (getWeekStart today) batch
      (afterDeletion b (batch.map (·.ad_id)) st, []) ad.ad_id ex dl rfl
      (by rw [show (afterDeletion b (batch.map (·.ad_id)) st,
          ([] : List ProcessedAd)).1 = afterDeletion b (batch.map (·.ad_id)) st
          from rfl, hdel]; exact hex) hdl hnew hxm
    exact ⟨r', by rw [hrun]; exact hlk', hwk, hls⟩
  · intro hnone hai
    obtain ⟨r', hlk', hrest⟩ := foldMerge_insert b today (getWeekStart today) batch
      (afterDeletion b (batch.map (·.ad_id)) st, []) ad.ad_id rfl
      (by rw [show (afterDeletion b (batch.map (·.ad_id)) st,
          ([] : List ProcessedAd)).1 = afterDeletion b (batch.map (·.ad_id)) st
          from rfl, hdel]; exact hnone) hxm hai
    exact ⟨r', by rw [hrun]; exact hlk', hrest⟩

/-- Closed witness: the stored ad of week 95 reappearing on day 103 (a
different week) moves from 3 to 4 weeks of longevity. -/
theorem c2_longevity_accounting_witness :
    ∃ r', vaultLookup ((processScrapedAds 1 [c2Ad] 103 c2State).1) c2Ad.ad_id = some r' ∧
      r'.weeks_in_top10 = c2Row.weeks_in_top10 + 1 ∧ r'.last_seen = some 103 :=
  (c2_longevity_accounting 1 103 [c2Ad] c2State c2Ad (by decide) (by decide)).1
    c2Row 95 (by decide) (by decide) (by decide)

set_option maxHeartbeats 1000000 in
/-- C4 (amended): for every non-empty brand batch, after reconciliation no
stored ad of the brand that is unbookmarked and absent from the batch
remains (it was deleted); every bookmarked stored ad absent from the batch
survives as the identical record; and no weekly snapshot row of a deleted
ad id remains. -/
theorem c4_deletion_and_bookmark_protection (b today : Nat) (batch : List CanonicalAd)
    (st : DBState) (hb : b ∈ brandIds st) (hne : batch ≠ []) :
    (∀ r ∈ ((processScrapedAds b batch today st).1).ad_vault,
      r.brand_id = b → r.bookmarked = false → r.ad_id ∈ batch.map (·.ad_id)) ∧
    (∀ r ∈ st.ad_vault, r.bookmarked = true → r.ad_id ∉ batch.map (·.ad_id) →
      r ∈ ((processScrapedAds b batch today st).1).ad_vault) ∧
    (∀ s ∈ ((processScrapedAds b batch today st).1).weekly_snapshots,
      s.ad_id ∉ (st.ad_vault.filter (deleteCond b (batch.map (·.ad_id)))).map (·.ad_id)) := by
  refine ⟨run_clean b today batch st hb hne, ?_, ?_⟩
  · intro r hr hbk hnx
    rw [run_eq b today batch st hb hne]
    show r ∈ (batch.foldl (mergeStep b today (getWeekStart today))
      (afterDeletion b (batch.map (·.ad_id)) st, [])).1.ad_vault
    refine foldMerge_vault_mem_pres b today (getWeekStart today) batch
      (afterDeletion b (batch.map (·.ad_id)) st, []) r ?_ hnx
    show r ∈ (afterDeletion b (batch.map (·.ad_id)) st).ad_vault
    refine (afterDeletion_vault_mem b (batch.map (·.ad_id)) st r).mpr ⟨hr, ?_⟩
    unfold deleteCond
    simp [hbk]
  · rw [run_eq b today batch st hb hne]
    intro s hs
    refine foldMerge_snaps_invariant b today (getWeekStart today) batch
      (afterDeletion b (batch.map (·.ad_id)) st, [])
      (fun t => t.ad_id ∉ (st.ad_vault.filter
        (deleteCond b (batch.map (·.ad_id)))).map (·.ad_id)) ?_ ?_ s hs
    · intro t ht
      exact ((afterDeletion_snaps_mem b (batch.map (·.ad_id)) st t).mp ht).2
    · intro ad had hmem
      obtain ⟨r0, hr0, hre⟩ := List.mem_map.mp hmem
      have hre' : r0.ad_id = ad.ad_id := hre
      have hcond := (List.mem_filter.mp hr0).2
      unfold deleteCond at hcond
      simp [Bool.and_eq_true] at hcond
      exact hcond.1.2 ad had hre'.symm

/-- Closed witness: with a non-empty batch, the bookmarked absent ad
survives reconciliation unchanged. -/
theorem c4_deletion_and_bookmark_protection_witness :
    c4BkmRow ∈ ((processScrapedAds 1 c4Batch 100 c4State2).1).ad_vault :=
  (c4_deletion_and_bookmark_protection 1 100 c4Batch c4State2 (by decide)
    (by decide)).2.1 c4BkmRow (by decide) (by decide) (by decide)

/-!  C7 (amended) — what a per-ad failure actually does. -/

theorem mergeLoop_fails_at (failsOn : AdId → Bool) (b today ws : Nat)
    (acc : DBState × List ProcessedAd) (pre : List CanonicalAd) (bad : CanonicalAd)
    (post : List CanonicalAd)
    (hpre : ∀ a ∈ pre, failsOn a.ad_id = false) (hbad : failsOn bad.ad_id = true) :
    mergeLoop failsOn b today ws acc (pre ++ bad :: post) =
      (pre.foldl (mergeStep b today ws) acc, some bad.ad_id) := by
  induction pre generalizing acc with
  | nil => simp [mergeLoop, hbad]
  | cons a rest ih =>
    have ha := hpre a (by simp)
    simp only [List.cons_append, mergeLoop, ha, Bool.false_eq_true, if_false,
      List.foldl_cons]
    exact ih (mergeStep b today ws acc a) fun a' h => hpre a' (by simp [h])

/-- C7 (amended): a failing per-ad storage write aborts the remaining ads
of the batch — the run ends in the state reached after the successfully
merged leading ads (their writes are kept, nothing is rolled back, the
`last_scraped` update is never reached), the error is propagated to the
caller, and the ads after the failing one are never processed. -/
theorem c7_per_ad_failure_aborts (failsOn : AdId → Bool) (b today : Nat) (st : DBState)
    (pre post : List CanonicalAd) (bad : CanonicalAd)
    (hb : b ∈ brandIds st)
    (hpre : ∀ a ∈ pre, failsOn a.ad_id = false)
    (hbad : failsOn bad.ad_id = true) :
    processScrapedAdsE failsOn b (pre ++ bad :: post) today st =
      (pre.foldl (mergeStep b today (getWeekStart today))
        (afterDeletion b ((pre ++ bad :: post).map (·.ad_id)) st, []),
       some bad.ad_id) := by
  unfold processScrapedAdsE
  have hne' : (pre ++ bad :: post).map (·.ad_id) ≠ [] := by simp
  simp [hb, hne', mergeLoop_fails_at failsOn b today (getWeekStart today) _ pre bad post
    hpre hbad]

/-- Closed witness: with a two-ad batch whose second write fails, the run
stops after the first ad and surfaces the failing ad id. -/
theorem c7_per_ad_failure_aborts_witness :
    processScrapedAdsE c7FailsFirst 1 ([c7Ad2] ++ c7Ad1 :: []) 100 emptyState1 =
      ([c7Ad2].foldl (mergeStep 1 100 (getWeekStart 100))
        (afterDeletion 1 (([c7Ad2] ++ c7Ad1 :: []).map (·.ad_id)) emptyState1, []),
       some c7Ad1.ad_id) :=
  c7_per_ad_failure_aborts c7FailsFirst 1 100 emptyState1 [c7Ad2] [] c7Ad1
    (by decide) (by decide) (by decide)

/-!  Basic lemmas about the insertion-ordered collapse map. -/

theorem lookupKV_setKV_self (m : List (GKey × GEntry)) (k : GKey) (v : GEntry) :
    lookupKV (setKV m k v) k = some v := by
  induction m with
  | nil => simp [setKV, lookupKV]
  | cons p rest ih =>
    by_cases h : p.1 = k
    · simp [setKV, lookupKV, h]
    · simp [setKV, lookupKV, h, ih]

theorem lookupKV_setKV_ne (m : List (GKey × GEntry)) (k k' : GKey) (v : GEntry)
    (h : k' ≠ k) : lookupKV (setKV m k v) k' = lookupKV m k' := by
  have hk : ¬ k = k' := fun he => h he.symm
  induction m with
  | nil => simp [setKV, lookupKV, hk]
  | cons p rest ih =>
    by_cases hp : p.1 = k
    · have hp' : ¬ p.1 = k' := by rw [hp]; exact hk
      simp [setKV, lookupKV, hp, hk, hp']
    · by_cases hp' : p.1 = k'
      · simp [setKV, lookupKV, hp, hp', hk, h]
      · simp [setKV, lookupKV, hp, hp', ih]

theorem lookupKV_eq_none_of_not_mem (m : List (GKey × GEntry)) (k : GKey)
    (h : k ∉ keysOf m) : lookupKV m k = none := by
  induction m with
  | nil => rfl
  | cons p rest ih =>
    simp only [keysOf, List.map_cons, List.mem_cons, not_or] at h
    have : ¬ p.1 = k := fun he => h.1 he.symm
    simp [lookupKV, this]
    exact ih (by simpa [keysOf] using h.2)

theorem mem_keysOf_of_lookupKV (m : List (GKey × GEntry)) (k : GKey) (v : GEntry)
    (h : lookupKV m k = some v) : k ∈ keysOf m := by
  induction m with
  | nil => simp [lookupKV] at h
  | cons p rest ih =>
    by_cases hp : p.1 = k
    · simp [keysOf, hp]
    · simp [lookupKV, hp] at h
      simp [keysOf]
      exact Or.inr (by simpa [keysOf] using ih h)

theorem setKV_of_not_mem (m : List (GKey × GEntry)) (k : GKey) (v : GEntry)
    (h : k ∉ keysOf m) : setKV m k v = m ++ [(k, v)] := by
  induction m with
  | nil => rfl
  | cons p rest ih =>
    simp only [keysOf, List.map_cons, List.mem_cons, not_or] at h
    have : ¬ p.1 = k := fun he => h.1 he.symm
    simp [setKV, this]
    exact ih (by simpa [keysOf] using h.2)

theorem setKV_decomp (m : List (GKey × GEntry)) (k : GKey) (v old : GEntry)
    (h : lookupKV m k = some old) :
    ∃ m₁ m₂, m = m₁ ++ (k, old) :: m₂ ∧ setKV m k v = m₁ ++ (k, v) :: m₂ := by
  induction m with
  | nil => simp [lookupKV] at h
  | cons p rest ih =>
    by_cases hp : p.1 = k
    · refine ⟨[], rest, ?_, ?_⟩
      · simp [lookupKV, hp] at h
        rw [show p = (p.1, p.2) from rfl, hp, h]
        rfl
      · simp [setKV, hp]
    · simp only [lookupKV, hp, if_false] at h
      obtain ⟨m₁, m₂, hm, hset⟩ := ih h
      refine ⟨p :: m₁, m₂, by rw [hm]; simp, ?_⟩
      simp [setKV, hp, hset]

theorem mem_setKV (m : List (GKey × GEntry)) (k : GKey) (v : GEntry) (p : GKey × GEntry)
    (hp : p ∈ setKV m k v) : p ∈ m ∨ p = (k, v) := by
  induction m with
  | nil => simp [setKV] at hp; exact Or.inr hp
  | cons q rest ih =>
    by_cases hq : q.1 = k
    · simp [setKV, hq] at hp
      rcases hp with h | h
      · exact Or.inr (by rw [h])
      · exact Or.inl (by simp [h])
    · simp only [setKV, hq, if_false, List.mem_cons] at hp
      rcases hp with h | h
      · exact Or.inl (by simp [h])
      · rcases ih h with h' | h'
        · exact Or.inl (by simp [h'])
        · exact Or.inr h'

theorem keysOf_setKV_mem (m : List (GKey × GEntry)) (k : GKey) (v old : GEntry)
    (h : lookupKV m k = some old) : keysOf (setKV m k v) = keysOf m := by
  obtain ⟨m₁, m₂, hm, hset⟩ := setKV_decomp m k v old h
  rw [hset, hm]
  simp [keysOf]

theorem lookupKV_isSome_of_mem (m : List (GKey × GEntry)) (k : GKey)
    (h : k ∈ keysOf m) : ∃ v, lookupKV m k = some v := by
  induction m with
  | nil => simp [keysOf] at h
  | cons p rest ih =>
    by_cases hp : p.1 = k
    · exact ⟨p.2, by simp [lookupKV, hp]⟩
    · simp only [keysOf, List.map_cons, List.mem_cons] at h
      rcases h with h | h
      · exact absurd h.symm hp
      · obtain ⟨v, hv⟩ := ih (by simpa [keysOf] using h)
        exact ⟨v, by simp [lookupKV, hp, hv]⟩

/-!  Equations for one collapse-pass iteration. -/

theorem collapseStep_sig_replace (sig : RawItem → String) (st : GState) (it : RawItem)
    (e : GEntry) (hs : sig it ≠ "")
    (hlk : lookupKV st.m (GKey.sig (sig it)) = some e)
    (hts : startTimestamp it > 0 ∧ startTimestamp it < e.startTimestamp) :
    collapseStep sig st it =
      { st with m := setKV st.m (GKey.sig (sig it)) ⟨it, startTimestamp it⟩ } := by
  unfold collapseStep
  rw [if_pos hs, hlk]
  exact if_pos hts

theorem collapseStep_sig_keep (sig : RawItem → String) (st : GState) (it : RawItem)
    (e : GEntry) (hs : sig it ≠ "")
    (hlk : lookupKV st.m (GKey.sig (sig it)) = some e)
    (hts : ¬ (startTimestamp it > 0 ∧ startTimestamp it < e.startTimestamp)) :
    collapseStep sig st it = st := by
  unfold collapseStep
  rw [if_pos hs, hlk]
  exact if_neg hts

theorem collapseStep_sig_new (sig : RawItem → String) (st : GState) (it : RawItem)
    (hs : sig it ≠ "") (hlk : lookupKV st.m (GKey.sig (sig it)) = none) :
    collapseStep sig st it =
      { st with m := setKV st.m (GKey.sig (sig it)) ⟨it, startTimestamp it⟩ } := by
  unfold collapseStep
  rw [if_pos hs, hlk]

theorem collapseStep_id (sig : RawItem → String) (st : GState) (it : RawItem)
    (a : String) (hs : sig it = "") (hid : adIdOf it = some a) :
    collapseStep sig st it =
      { st with m := setKV st.m (GKey.id a) ⟨it, startTimestamp it⟩ } := by
  unfold collapseStep
  rw [if_neg (by simp [hs]), hid]

theorem collapseStep_fresh (sig : RawItem → String) (st : GState) (it : RawItem)
    (hs : sig it = "") (hid : adIdOf it = none) :
    collapseStep sig st it =
      ⟨setKV st.m (GKey.fresh st.freshn) ⟨it, startTimestamp it⟩, st.freshn + 1⟩ := by
  unfold collapseStep
  rw [if_neg (by simp [hs]), hid]

/-!  Preservation of the collapse-pass invariant. -/

theorem WFState_nil (sig : RawItem → String) : WFState sig ⟨[], 0⟩ := by
  constructor
  · exact List.nodup_nil
  · intro p hp
    simp at hp

theorem WFState_step (sig : RawItem → String) (st : GState) (it : RawItem)
    (h : WFState sig st) : WFState sig (collapseStep sig st it) := by
  obtain ⟨hnd, hent⟩ := h
  by_cases hs : sig it ≠ ""
  · cases hlk : lookupKV st.m (GKey.sig (sig it)) with
    | some e =>
      by_cases hts : startTimestamp it > 0 ∧ startTimestamp it < e.startTimestamp
      · rw [collapseStep_sig_replace sig st it e hs hlk hts]
        refine ⟨?_, ?_⟩
        · show (keysOf (setKV st.m (GKey.sig (sig it)) ⟨it, startTimestamp it⟩)).Nodup
          rw [keysOf_setKV_mem _ _ _ e hlk]
          exact hnd
        · intro p hp
          rcases mem_setKV _ _ _ p hp with hmem | hpe
          · exact hent p hmem
          · subst hpe
            refine ⟨?_, ?_, ?_⟩
            · intro s hks
              injection hks with h'
              exact ⟨h'.symm ▸ rfl, h' ▸ hs⟩
            · intro a hka
              exact absurd hka (by simp)
            · intro n hkn
              exact absurd hkn (by simp)
      · rw [collapseStep_sig_keep sig st it e hs hlk hts]
        exact ⟨hnd, hent⟩
    | none =>
      have hnot : GKey.sig (sig it) ∉ keysOf st.m := by
        intro hmem
        obtain ⟨v, hv⟩ := lookupKV_isSome_of_mem st.m _ hmem
        rw [hlk] at hv
        exact Option.noConfusion hv
      rw [collapseStep_sig_new sig st it hs hlk, setKV_of_not_mem st.m _ _ hnot]
      refine ⟨?_, ?_⟩
      · show (keysOf (st.m ++ [(GKey.sig (sig it), ⟨it, startTimestamp it⟩)])).Nodup
        rw [show keysOf (st.m ++ [(GKey.sig (sig it), ⟨it, startTimestamp it⟩)])
          = keysOf st.m ++ [GKey.sig (sig it)] from by simp [keysOf]]
        rw [List.nodup_append]
        exact ⟨hnd, List.nodup_singleton _, by simpa using hnot⟩
      · intro p hp
        rcases List.mem_append.mp hp with hmem | hpe
        · exact hent p hmem
        · rw [List.mem_singleton.mp hpe]
          refine ⟨?_, ?_, ?_⟩
          · intro s hks
            injection hks with h'
            exact ⟨h'.symm ▸ rfl, h' ▸ hs⟩
          · intro a hka
            exact absurd hka (by simp)
          · intro n hkn
            exact absurd hkn (by simp)
  · push_neg at hs
    cases hid : adIdOf it with
    | some a =>
      rw [collapseStep_id sig st it a hs hid]
      by_cases hmem : GKey.id a ∈ keysOf st.m
      · obtain ⟨old, hold⟩ := lookupKV_isSome_of_mem st.m _ hmem
        refine ⟨?_, ?_⟩
        · show (keysOf (setKV st.m (GKey.id a) ⟨it, startTimestamp it⟩)).Nodup
          rw [keysOf_setKV_mem _ _ _ old hold]
          exact hnd
        · intro p hp
          rcases mem_setKV _ _ _ p hp with hm2 | hpe
          · exact hent p hm2
          · subst hpe
            refine ⟨?_, ?_, ?_⟩
            · intro s hks
              exact absurd hks (by simp)
            · intro a2 hka
              injection hka with h2
              exact ⟨hs, h2 ▸ hid⟩
            · intro n hkn
              exact absurd hkn (by simp)
      · rw [setKV_of_not_mem st.m _ _ hmem]
        refine ⟨?_, ?_⟩
        · show (keysOf (st.m ++ [(GKey.id a, ⟨it, startTimestamp it⟩)])).Nodup
          rw [show keysOf (st.m ++ [(GKey.id a, ⟨it, startTimestamp it⟩)])
            = keysOf st.m ++ [GKey.id a] from by simp [keysOf]]
          rw [List.nodup_append]
          exact ⟨hnd, List.nodup_singleton _, by simpa using hmem⟩
        · intro p hp
          rcases List.mem_append.mp hp with hm2 | hpe
          · exact hent p hm2
          · rw [List.mem_singleton.mp hpe]
            refine ⟨?_, ?_, ?_⟩
            · intro s hks
              exact absurd hks (by simp)
            · intro a2 hka
              injection hka with h2
              exact ⟨hs, h2 ▸ hid⟩
            · intro n hkn
              exact absurd hkn (by simp)
    | none =>
      have hnot : GKey.fresh st.freshn ∉ keysOf st.m := by
        intro hmem
        obtain ⟨p, hp, hpk⟩ := List.mem_map.mp hmem
        have := ((hent p hp).2.2 st.freshn hpk).2.2
        exact absurd this (lt_irrefl _)
      rw [collapseStep_fresh sig st it hs hid, setKV_of_not_mem st.m _ _ hnot]
      refine ⟨?_, ?_⟩
      · show (keysOf (st.m ++ [(GKey.fresh st.freshn, ⟨it, startTimestamp it⟩)])).Nodup
        rw [show keysOf (st.m ++ [(GKey.fresh st.freshn, ⟨it, startTimestamp it⟩)])
          = keysOf st.m ++ [GKey.fresh st.freshn] from by simp [keysOf]]
        rw [List.nodup_append]
        exact ⟨hnd, List.nodup_singleton _, by simpa using hnot⟩
      · intro p hp
        rcases List.mem_append.mp hp with hm2 | hpe
        · refine ⟨(hent p hm2).1, (hent p hm2).2.1, ?_⟩
          intro n hkn
          obtain ⟨h1, h2, h3⟩ := (hent p hm2).2.2 n hkn
          exact ⟨h1, h2, Nat.lt_succ_of_lt h3⟩
        · rw [List.mem_singleton.mp hpe]
          refine ⟨?_, ?_, ?_⟩
          · intro s hks
            exact absurd hks (by simp)
          · intro a hka
            exact absurd hka (by simp)
          · intro n hkn
            injection hkn with h2
            exact ⟨hs, hid, by rw [← h2]; exact Nat.lt_succ_self _⟩


theorem WFState_fold (sig : RawItem → String) (items : List RawItem) (st : GState)
    (h : WFState sig st) : WFState sig (items.foldl (collapseStep sig) st) := by
  induction items generalizing st with
  | nil => exact h
  | cons it rest ih =>
    rw [List.foldl_cons]
    exact ih (collapseStep sig st it) (WFState_step sig st it h)

theorem WFState_pairwise (sig : RawItem → String) (st : GState) (h : WFState sig st) :
    (st.m.map (·.2.item)).Pairwise (sigDistinct sig) := by
  obtain ⟨hnd, hent⟩ := h
  rw [List.pairwise_map]
  have hknd : st.m.Pairwise (fun p q => p.1 ≠ q.1) := by
    rw [keysOf, List.Nodup, List.pairwise_map] at hnd
    exact hnd
  refine List.Pairwise.imp_of_mem ?_ hknd
  intro p q hp hq hne hsp hsq heq
  have hkp : p.1 = GKey.sig (sig p.2.item) := by
    cases hk : p.1 with
    | sig s =>
      obtain ⟨h1, _⟩ := (hent p hp).1 s hk
      rw [h1]
    | id a =>
      obtain ⟨h1, _⟩ := (hent p hp).2.1 a hk
      exact absurd h1 hsp
    | fresh n =>
      obtain ⟨h1, _, _⟩ := (hent p hp).2.2 n hk
      exact absurd h1 hsp
  have hkq : q.1 = GKey.sig (sig q.2.item) := by
    cases hk : q.1 with
    | sig s =>
      obtain ⟨h1, _⟩ := (hent q hq).1 s hk
      rw [h1]
    | id a =>
      obtain ⟨h1, _⟩ := (hent q hq).2.1 a hk
      exact absurd h1 hsq
    | fresh n =>
      obtain ⟨h1, _, _⟩ := (hent q hq).2.2 n hk
      exact absurd h1 hsq
  apply hne
  rw [hkp, hkq, heq]

theorem collapsePass_pairwise (sig : RawItem → String) (items : List RawItem) :
    (collapsePass sig items).Pairwise (sigDistinct sig) :=
  WFState_pairwise sig (items.foldl (collapseStep sig) ⟨[], 0⟩)
    (WFState_fold sig items ⟨[], 0⟩ (WFState_nil sig))

/-!  Every collapse pass emits a sub-permutation of its input. -/

theorem subperm_snoc {α : Type} {l₁ l₂ : List α} (h : List.Subperm l₁ l₂) (a : α) :
    List.Subperm (l₁ ++ [a]) (l₂ ++ [a]) := by
  obtain ⟨l, hp, hs⟩ := h
  exact ⟨l ++ [a], hp.append_right [a], hs.append_right [a]⟩

theorem subperm_cons_snoc {α : Type} {l₁ l₂ : List α} (h : List.Subperm l₁ l₂) (a : α) :
    List.Subperm (a :: l₁) (l₂ ++ [a]) :=
  List.Subperm.trans ((List.perm_append_singleton a l₁).symm).subperm (subperm_snoc h a)

theorem collapseStep_items_subperm (sig : RawItem → String) (st : GState) (it : RawItem)
    (processed : List RawItem) (h : List.Subperm (st.m.map (·.2.item)) processed) :
    List.Subperm ((collapseStep sig st it).m.map (·.2.item)) (processed ++ [it]) := by
  have hkeep : List.Subperm (st.m.map (·.2.item)) (processed ++ [it]) :=
    h.trans (List.sublist_append_left processed [it]).subperm
  have happend : ∀ (k : GKey), k ∉ keysOf st.m →
      List.Subperm ((setKV st.m k ⟨it, startTimestamp it⟩).map (·.2.item)) (processed ++ [it]) := by
    intro k hk
    rw [setKV_of_not_mem st.m k _ hk, List.map_append]
    exact subperm_snoc h it
  have hreplace : ∀ (k : GKey) old, lookupKV st.m k = some old →
      List.Subperm ((setKV st.m k ⟨it, startTimestamp it⟩).map (·.2.item)) (processed ++ [it]) := by
    intro k old hold
    obtain ⟨m₁, m₂, hm, hset⟩ := setKV_decomp st.m k ⟨it, startTimestamp it⟩ old hold
    rw [hset, List.map_append, List.map_cons]
    have hin : List.Subperm (m₁.map (·.2.item) ++ old.item :: m₂.map (·.2.item)) processed := by
      rw [hm, List.map_append, List.map_cons] at h
      exact h
    have hX : List.Subperm (m₁.map (·.2.item) ++ m₂.map (·.2.item)) processed := by
      refine List.Subperm.trans ?_ hin
      exact (List.Sublist.append_left (List.sublist_cons_self old.item (m₂.map (·.2.item)))
        (m₁.map (·.2.item))).subperm
    refine (List.perm_middle).subperm.trans ?_
    exact subperm_cons_snoc hX it
  by_cases hs : sig it ≠ ""
  · cases hlk : lookupKV st.m (GKey.sig (sig it)) with
    | some e =>
      by_cases hts : startTimestamp it > 0 ∧ startTimestamp it < e.startTimestamp
      · rw [collapseStep_sig_replace sig st it e hs hlk hts]
        exact hreplace _ e hlk
      · rw [collapseStep_sig_keep sig st it e hs hlk hts]
        exact hkeep
    | none =>
      rw [collapseStep_sig_new sig st it hs hlk]
      refine happend _ ?_
      intro hmem
      obtain ⟨v, hv⟩ := lookupKV_isSome_of_mem st.m _ hmem
      rw [hlk] at hv
      exact Option.noConfusion hv
  · push_neg at hs
    cases hid : adIdOf it with
    | some a =>
      rw [collapseStep_id sig st it a hs hid]
      by_cases hmem : GKey.id a ∈ keysOf st.m
      · obtain ⟨old, hold⟩ := lookupKV_isSome_of_mem st.m _ hmem
        exact hreplace _ old hold
      · exact happend _ hmem
    | none =>
      rw [collapseStep_fresh sig st it hs hid]
      by_cases hmem : GKey.fresh st.freshn ∈ keysOf st.m
      · obtain ⟨old, hold⟩ := lookupKV_isSome_of_mem st.m _ hmem
        exact hreplace _ old hold
      · exact happend _ hmem

theorem foldCollapse_subperm (sig : RawItem → String) (items : List RawItem)
    (st : GState) (processed : List RawItem)
    (h : List.Subperm (st.m.map (·.2.item)) processed) :
    List.Subperm (((items.foldl (collapseStep sig) st).m).map (·.2.item)) (processed ++ items) := by
  induction items generalizing st processed with
  | nil => simpa using h
  | cons it rest ih =>
    rw [List.foldl_cons]
    have hstep := collapseStep_items_subperm sig st it processed h
    have := ih (collapseStep sig st it) (processed ++ [it]) hstep
    rwa [List.append_assoc, List.singleton_append] at this

theorem collapsePass_subperm (sig : RawItem → String) (items : List RawItem) :
    List.Subperm (collapsePass sig items) items := by
  have := foldCollapse_subperm sig items ⟨[], 0⟩ [] (by simp)
  simpa [collapsePass] using this

theorem subperm_pairwise {α : Type} {R : α → α → Prop} (hsym : ∀ a b, R a b → R b a)
    {l₁ l₂ : List α} (h : List.Subperm l₁ l₂) (hp : l₂.Pairwise R) : l₁.Pairwise R := by
  obtain ⟨l, hperm, hsub⟩ := h
  have hl : l.Pairwise R := List.Pairwise.sublist hsub hp
  exact (hperm.pairwise_iff fun hab => hsym _ _ hab).mp hl

theorem sigDistinct_symm (sig : RawItem → String) (a b : RawItem)
    (h : sigDistinct sig a b) : sigDistinct sig b a :=
  fun hb ha => Ne.symm (h ha hb)

/-- C5 (amended): in every Deduplicator output no two canonical ads share
a non-empty media fingerprint and no two share a non-empty normalized
headline; and two input items lacking external id, media fingerprint and
headline both survive as distinct entries even when they are identical —
collapse on identical empty keys happens only through the identifier pass
(see the counterexample). -/
theorem c5_dedup_key_uniqueness :
    (∀ rs : List RawItem,
      (dedupItems rs).Pairwise (sigDistinct mediaSig) ∧
      (dedupItems rs).Pairwise (sigDistinct headlineSig)) ∧
    (∀ i1 i2 : RawItem, adIdOf i1 = none → adIdOf i2 = none →
      mediaSig i1 = "" → mediaSig i2 = "" → headlineSig i1 = "" → headlineSig i2 = "" →
      dedupItems [i1, i2] = [i1, i2]) := by
  constructor
  · intro rs
    constructor
    · have hp2 : (collapsePass mediaSig (uniqueById [] rs)).Pairwise (sigDistinct mediaSig) :=
        collapsePass_pairwise mediaSig _
      have hsub : List.Subperm (uniqueResults rs)
          (collapsePass mediaSig (uniqueById [] rs)) :=
        collapsePass_subperm headlineSig _
      have hp3 : (uniqueResults rs).Pairwise (sigDistinct mediaSig) :=
        subperm_pairwise (sigDistinct_symm mediaSig) hsub hp2
      exact List.Pairwise.sublist (List.take_sublist 20 _) hp3
    · have hp3 : (uniqueResults rs).Pairwise (sigDistinct headlineSig) :=
        collapsePass_pairwise headlineSig _
      exact List.Pairwise.sublist (List.take_sublist 20 _) hp3
  · intro i1 i2 h1 h2 hm1 hm2 hh1 hh2
    have hU : uniqueById [] [i1, i2] = [i1, i2] := by
      simp [uniqueById, h1, h2]
    have hM : collapsePass mediaSig [i1, i2] = [i1, i2] := by
      unfold collapsePass
      rw [List.foldl_cons, collapseStep_fresh mediaSig ⟨[], 0⟩ i1 hm1 h1]
      rw [List.foldl_cons, collapseStep_fresh mediaSig _ i2 hm2 h2]
      rfl
    have hH : collapsePass headlineSig [i1, i2] = [i1, i2] := by
      unfold collapsePass
      rw [List.foldl_cons, collapseStep_fresh headlineSig ⟨[], 0⟩ i1 hh1 h1]
      rw [List.foldl_cons, collapseStep_fresh headlineSig _ i2 hh2 h2]
      rfl
    rw [dedupItems, uniqueResults, hU, hM, hH]
    rfl

/-- Closed witness: two copies of the fully empty raw item both survive
deduplication. -/
theorem c5_dedup_key_uniqueness_witness :
    dedupItems [c5FreshItem, c5FreshItem] = [c5FreshItem, c5FreshItem] :=
  c5_dedup_key_uniqueness.2 c5FreshItem c5FreshItem (by decide) (by decide)
    (by decide) (by decide) (by decide) (by decide)

/-!  Group representatives of the collapse passes (C3). -/

theorem collapseStep_lookup_sig_other (sig : RawItem → String) (st : GState)
    (it : RawItem) (s : String) (hit : sig it ≠ s) :
    lookupKV (collapseStep sig st it).m (GKey.sig s) = lookupKV st.m (GKey.sig s) := by
  have hkey : GKey.sig s ≠ GKey.sig (sig it) := by
    intro h
    injection h with h'
    exact hit h'.symm
  by_cases hs : sig it ≠ ""
  · cases hlk : lookupKV st.m (GKey.sig (sig it)) with
    | some e =>
      by_cases hts : startTimestamp it > 0 ∧ startTimestamp it < e.startTimestamp
      · rw [collapseStep_sig_replace sig st it e hs hlk hts]
        exact lookupKV_setKV_ne st.m _ _ _ hkey
      · rw [collapseStep_sig_keep sig st it e hs hlk hts]
    | none =>
      rw [collapseStep_sig_new sig st it hs hlk]
      exact lookupKV_setKV_ne st.m _ _ _ hkey
  · push_neg at hs
    cases hid : adIdOf it with
    | some a =>
      rw [collapseStep_id sig st it a hs hid]
      exact lookupKV_setKV_ne st.m _ _ _ (by simp)
    | none =>
      rw [collapseStep_fresh sig st it hs hid]
      exact lookupKV_setKV_ne st.m _ _ _ (by simp)

theorem foldCollapse_group (sig : RawItem → String) (items : List RawItem) (st : GState)
    (s : String) (hs : s ≠ "") :
    lookupKV (items.foldl (collapseStep sig) st).m (GKey.sig s) =
      groupFoldAux (items.filter fun it => sig it = s) (lookupKV st.m (GKey.sig s)) := by
  induction items generalizing st with
  | nil => rfl
  | cons it rest ih =>
    rw [List.foldl_cons]
    by_cases hit : sig it = s
    · rw [List.filter_cons_of_pos (by simp [hit])]
      subst hit
      have hs' : sig it ≠ "" := hs
      cases hlk : lookupKV st.m (GKey.sig (sig it)) with
      | some e =>
        by_cases hts : startTimestamp it > 0 ∧ startTimestamp it < e.startTimestamp
        · rw [collapseStep_sig_replace sig st it e hs' hlk hts, ih]
          simp only [lookupKV_setKV_self]
          show groupFoldAux _ (some ⟨it, startTimestamp it⟩) =
            groupFoldAux _ (some (groupStep e it))
          have hst : groupStep e it = ⟨it, startTimestamp it⟩ := by
            unfold groupStep
            rw [if_pos hts]
          rw [hst]
        · rw [collapseStep_sig_keep sig st it e hs' hlk hts, ih, hlk]
          show groupFoldAux _ (some e) = groupFoldAux _ (some (groupStep e it))
          have hst : groupStep e it = e := by
            unfold groupStep
            rw [if_neg hts]
          rw [hst]
      | none =>
        rw [collapseStep_sig_new sig st it hs' hlk, ih]
        simp only [lookupKV_setKV_self]
        rfl
    · rw [List.filter_cons_of_neg (by simp [hit]), ih,
        collapseStep_lookup_sig_other sig st it s hit]

theorem collapsePass_group (sig : RawItem → String) (items : List RawItem) (s : String)
    (hs : s ≠ "") :
    lookupKV ((items.foldl (collapseStep sig) ⟨[], 0⟩).m) (GKey.sig s) =
      groupRep (items.filter fun it => sig it = s) :=
  foldCollapse_group sig items ⟨[], 0⟩ s hs

theorem groupFoldAux_zero_absorb (k : GEntry) (hk : k.startTimestamp = 0)
    (l : List RawItem) : groupFoldAux l (some k) = some k := by
  induction l with
  | nil => rfl
  | cons c rest ih =>
    show groupFoldAux rest (some (groupStep k c)) = some k
    have hstep : groupStep k c = k := by
      rw [groupStep, if_neg]
      rw [hk]
      rintro ⟨hpos, hlt⟩
      omega
    rw [hstep, ih]

theorem uniqueById_cons (seen : List String) (it : RawItem) (rest : List RawItem) :
    uniqueById seen (it :: rest) =
      match adIdOf it with
      | none => it :: uniqueById seen rest
      | some a =>
        if a ∈ seen then uniqueById seen rest else it :: uniqueById (a :: seen) rest := rfl

theorem uniqueById_filter (rs : List RawItem) (seen : List String) (a : String) :
    (uniqueById seen rs).filter (fun it => adIdOf it = some a) =
      if a ∈ seen then [] else (rs.filter (fun it => adIdOf it = some a)).take 1 := by
  induction rs generalizing seen with
  | nil => by_cases h : a ∈ seen <;> simp [uniqueById, h]
  | cons it rest ih =>
    cases hid : adIdOf it with
    | none =>
      rw [show uniqueById seen (it :: rest) = it :: uniqueById seen rest from by
        rw [uniqueById_cons, hid]]
      rw [List.filter_cons_of_neg (by simp [hid]),
        List.filter_cons_of_neg (by simp [hid])]
      exact ih seen
    | some b =>
      by_cases hmem : b ∈ seen
      · rw [show uniqueById seen (it :: rest) = uniqueById seen rest from by
          rw [uniqueById_cons, hid]; simp [hmem]]
        rw [ih seen]
        by_cases hab : a = b
        · subst hab
          simp [hmem]
        · rw [List.filter_cons_of_neg (by simp [hid]; exact fun h => hab h.symm)]
      · rw [show uniqueById seen (it :: rest) = it :: uniqueById (b :: seen) rest from by
          rw [uniqueById_cons, hid]; simp [hmem]]
        by_cases hab : a = b
        · subst hab
          rw [List.filter_cons_of_pos (by simp [hid]),
            List.filter_cons_of_pos (by simp [hid])]
          rw [ih (a :: seen)]
          simp [hmem]
        · rw [List.filter_cons_of_neg (by simp [hid]; exact fun h => hab h.symm),
            List.filter_cons_of_neg (by simp [hid]; exact fun h => hab h.symm)]
          rw [ih (b :: seen)]
          by_cases ha : a ∈ seen
          · rw [if_pos ha, if_pos (List.mem_cons_of_mem b ha)]
          · rw [if_neg (fun hc => (List.mem_cons.mp hc).elim hab ha), if_neg ha]

/-- C3 (amended): the identifier pass keeps the first occurrence of every
non-empty id with no timestamp tie-break; in the media and headline passes
the kept representative of a group is the fold of the rule "a candidate
replaces the kept entry only when its timestamp is non-zero and strictly
below the kept one"; consequently a first-encountered member with
timestamp 0 is kept forever — a later known timestamp never replaces it. -/
theorem c3_group_representative :
    (∀ (rs : List RawItem) (a : String),
      (uniqueById [] rs).filter (fun it => adIdOf it = some a) =
        (rs.filter (fun it => adIdOf it = some a)).take 1) ∧
    (∀ (sig : RawItem → String) (items : List RawItem) (s : String), s ≠ "" →
      lookupKV ((items.foldl (collapseStep sig) ⟨[], 0⟩).m) (GKey.sig s) =
        groupRep (items.filter fun it => sig it = s)) ∧
    (∀ (it : RawItem) (rest : List RawItem), startTimestamp it = 0 →
      groupRep (it :: rest) = some ⟨it, 0⟩) := by
  refine ⟨?_, ?_, ?_⟩
  · intro rs a
    rw [uniqueById_filter rs [] a]
    simp
  · intro sig items s hs
    exact collapsePass_group sig items s hs
  · intro it rest h
    show groupFoldAux rest (some ⟨it, startTimestamp it⟩) = some ⟨it, 0⟩
    rw [h]
    exact groupFoldAux_zero_absorb ⟨it, 0⟩ rfl rest

/-- Closed witness: the media group of the two C3 items is represented by
the unknown-timestamp item, and the fold characterization evaluates on
them. -/
theorem c3_group_representative_witness :
    lookupKV (([c3ItemUnknownTs, c3ItemKnownTs].foldl (collapseStep mediaSig) ⟨[], 0⟩).m)
        (GKey.sig "12345678901_7") =
      groupRep ([c3ItemUnknownTs, c3ItemKnownTs].filter
        fun it => mediaSig it = "12345678901_7") ∧
    groupRep (c3ItemUnknownTs :: [c3ItemKnownTs]) = some ⟨c3ItemUnknownTs, 0⟩ :=
  ⟨c3_group_representative.2.1 mediaSig [c3ItemUnknownTs, c3ItemKnownTs]
      "12345678901_7" (by decide),
   c3_group_representative.2.2 c3ItemUnknownTs [c3ItemKnownTs] (by decide)⟩

/-!  Totality and degradation of the Deduplicator (C9). -/

end CompetitorAds
